import Mathlib

/-! # task-controller: tasks, tags and their associations

A shallow embedding of the orchestration layer of `sikigasa/task-controller-go`:

* `internal/domain`  : the row and parameter types;
* `internal/infra`   : the three single-table repositories (`taskRepo`, `tagRepo`,
  `taskTagRepo`), each method issuing one SQL statement;
* `internal/infra/driver/transaction.go` : `WithTransaction`;
* `internal/usecase/task.go` : `CreateTask`, `GetTask`, `ListTask`, `UpdateTask`, `DeleteTask`.

The database behind `database/sql` is not part of the repository.  It is represented by an
explicit state `World`: the committed tables, the writes staged by open transactions, a
schedule of driver faults, and a log of the driver calls that were made.  Go functions that
return `error` become functions returning `Option Error` (`none` is `nil`); functions that
return `(value, error)` become functions returning `Except Error value`.  Every function
threads the `World` explicitly.
-/

set_option linter.dupNamespace false

namespace TaskController

/-! ## Errors and time -/

/-- Instants of `time.Time`, counted from the Unix epoch. -/
abbrev Time := Int

/-- Go `error` values that occur in the program.
`ErrNoRows` and `ErrTxDone` are the sentinels of `database/sql`; `other` is an error
produced outside the repository (the SQL driver, the store, the random source of the
identifier generator); `errorf` is an error built with `fmt.Errorf`. -/
inductive Error where
  | ErrNoRows
  | ErrTxDone
  | other (msg : String)
  | errorf (msg : String)
  deriving DecidableEq, Repr

/-- The method `err.Error()`: the message of an error, which is what the verb `%v` prints. -/
def Error.Error : Error → String
  | .ErrNoRows => "sql: no rows in result set"
  | .ErrTxDone => "sql: transaction has already been committed or rolled back"
  | .other msg => msg
  | .errorf msg => msg

/-- The error part of a `(value, error)` result. -/
def errOf {α : Type} : Except Error α → Option Error
  | .error err => some err
  | .ok _ => none

/-! ## `internal/domain` -/

namespace domain

/-- `domain.Task` (entities.go). -/
structure Task where
  ID : String
  Title : String
  Description : String
  IsEnd : Bool
  CreatedAt : Time
  UpdateAt : Time
  LimitedAt : Time
  deriving DecidableEq, Repr

/-- `domain.Tag` (entities.go). -/
structure Tag where
  ID : String
  Name : String
  deriving DecidableEq, Repr

/-- `domain.TaskTag` (entities.go). -/
structure TaskTag where
  TaskID : String
  TagID : String
  deriving DecidableEq, Repr

/-- `domain.CreateTaskParam` (params.go). -/
structure CreateTaskParam where
  ID : String
  Title : String
  Description : String
  LimitedAt : Time
  IsEnd : Bool
  TagIDs : List String := []
  deriving DecidableEq, Repr

/-- `domain.GetTaskParam` (params.go). -/
structure GetTaskParam where
  ID : String
  deriving DecidableEq, Repr

/-- `domain.ListTaskParam` (params.go); `int32` fields. -/
structure ListTaskParam where
  Limit : Int
  Offset : Int
  deriving DecidableEq, Repr

/-- `domain.UpdateTaskParam` (params.go). -/
structure UpdateTaskParam where
  ID : String
  Title : String
  Description : String
  LimitedAt : Time
  IsEnd : Bool
  deriving DecidableEq, Repr

/-- `domain.DeleteTaskParam` (params.go). -/
structure DeleteTaskParam where
  ID : String
  deriving DecidableEq, Repr

/-- `domain.GetTagParam` (params.go). -/
structure GetTagParam where
  ID : String
  deriving DecidableEq, Repr

/-- `domain.CreateTaskTagParam` (params.go). -/
structure CreateTaskTagParam where
  TaskID : String
  TagID : String
  deriving DecidableEq, Repr

/-- `domain.GetTaskTagParam` (params.go). -/
structure GetTaskTagParam where
  TaskID : String
  deriving DecidableEq, Repr

/-- `domain.DeleteTaskTagParam` (params.go). -/
structure DeleteTaskTagParam where
  TaskID : String
  deriving DecidableEq, Repr

end domain

open domain

/-! ## The store behind `database/sql` -/

/-- The three tables, each in the store's row order. -/
structure Tables where
  task : List Task
  tag : List Tag
  task_tag : List TaskTag
  deriving DecidableEq, Repr

/-- The writing statements of `internal/infra/task.go` and `task_tag.go`, with their bound
arguments in the order of the placeholders. -/
inductive Stmt where
  /-- `INSERT INTO task (id, title, description, limited_at, is_end) VALUES ($1,$2,$3,$4,$5)` -/
  | insertTask (id title description : String) (limited_at : Time) (is_end : Bool)
  /-- `UPDATE task SET title = $1, description = $2, limited_at = $3, is_end = $4 WHERE id = $5` -/
  | updateTask (title description : String) (limited_at : Time) (is_end : Bool) (id : String)
  /-- `DELETE FROM task WHERE id = $1` -/
  | deleteTask (id : String)
  /-- `INSERT INTO task_tag (task_id, tag_id) VALUES ($1,$2)` -/
  | insertTaskTag (task_id tag_id : String)
  /-- `DELETE FROM task_tag WHERE task_id = $1` -/
  | deleteTaskTag (task_id : String)
  deriving DecidableEq, Repr

/-- The reading statements of `internal/infra`. -/
inductive Query where
  /-- `SELECT * FROM task WHERE id = $1` -/
  | taskByID (id : String)
  /-- `SELECT * FROM task LIMIT $1 OFFSET $2` -/
  | taskPage (limit offset : Int)
  /-- `SELECT * FROM task_tag WHERE task_id = $1` -/
  | taskTagByTaskID (task_id : String)
  /-- `SELECT id, name FROM Tag WHERE id = $1` -/
  | tagByID (id : String)
  deriving DecidableEq, Repr

/-- Effect of one writing statement on the tables, and the number of rows it affects.
An inserted Task row takes both of its store-managed timestamps from the store clock `now`
(`created_at` and `updated_at` default to the current timestamp in the table definition of
`task_test.go`); `UPDATE` leaves them as they are. -/
def Stmt.run (now : Time) : Stmt → Tables → Tables × Nat
  | .insertTask id title description limited_at is_end, t =>
    ({ t with task := t.task ++ [{ ID := id, Title := title, Description := description,
                                   IsEnd := is_end, CreatedAt := now, UpdateAt := now,
                                   LimitedAt := limited_at }] }, 1)
  | .updateTask title description limited_at is_end id, t =>
    ({ t with task := t.task.map fun r =>
        if r.ID = id then
          { r with Title := title, Description := description, LimitedAt := limited_at,
                   IsEnd := is_end }
        else r },
     (t.task.filter fun r => r.ID == id).length)
  | .deleteTask id, t =>
    ({ t with task := t.task.filter fun r => r.ID != id },
     (t.task.filter fun r => r.ID == id).length)
  | .insertTaskTag task_id tag_id, t =>
    ({ t with task_tag := t.task_tag ++ [{ TaskID := task_id, TagID := tag_id }] }, 1)
  | .deleteTaskTag task_id, t =>
    ({ t with task_tag := t.task_tag.filter fun r => r.TaskID != task_id },
     (t.task_tag.filter fun r => r.TaskID == task_id).length)

/-- The tables after a sequence of writing statements, oldest first. -/
def replay (now : Time) (stmts : List Stmt) (t : Tables) : Tables :=
  stmts.foldl (fun acc s => (s.run now acc).1) t

/-- Rows of `SELECT * FROM task WHERE id = $1`. -/
def selectTaskByID (id : String) (t : Tables) : Except Error (List Task) :=
  .ok (t.task.filter fun r => r.ID == id)

/-- Rows of `SELECT * FROM task LIMIT $1 OFFSET $2`, in the store's row order.
The store rejects a negative `LIMIT` or `OFFSET`. -/
def selectTaskPage (limit offset : Int) (t : Tables) : Except Error (List Task) :=
  if limit < 0 then .error (.other "LIMIT must not be negative")
  else if offset < 0 then .error (.other "OFFSET must not be negative")
  else .ok ((t.task.drop offset.toNat).take limit.toNat)

/-- Rows of `SELECT * FROM task_tag WHERE task_id = $1`, in the store's row order. -/
def selectTaskTagByTaskID (task_id : String) (t : Tables) : Except Error (List TaskTag) :=
  .ok (t.task_tag.filter fun r => r.TaskID == task_id)

/-- Rows of `SELECT id, name FROM Tag WHERE id = $1`. -/
def selectTagByID (id : String) (t : Tables) : Except Error (List Tag) :=
  .ok (t.tag.filter fun r => r.ID == id)

/-- The handle a statement is issued on: the pool `*sql.DB` (every statement is its own
transaction) or a transaction `*sql.Tx`. -/
inductive Handle where
  | db
  | tx (id : Nat)
  deriving DecidableEq, Repr

/-- One call into `database/sql`. -/
inductive Call where
  | BeginTx
  | Commit (tx : Nat)
  | Rollback (tx : Nat)
  | Exec (h : Handle) (s : Stmt)
  | Query (q : Query)
  deriving DecidableEq, Repr

/-- A logged call with its outcome (`none`: the call returned no error). -/
structure Event where
  call : Call
  err : Option Error
  deriving DecidableEq, Repr

/-- The transaction handle `*sql.Tx`. -/
structure Tx where
  id : Nat
  deriving DecidableEq, Repr

/-- What the driver does to one call.
* `fail msg`: the call fails with that message and without effect;
* `cut rows msg`: a query starts, but the iteration over its result set breaks off with that
  message after `rows` rows (or at its end, if it has fewer): `rows.Next()` answers false
  and `rows.Err()` reports the message.  A call without a result set goes through. -/
inductive Fault where
  | fail (msg : String)
  | cut (rows : Nat) (msg : String)
  deriving DecidableEq, Repr

/-- The state outside the program.

* `tables`: the committed rows, which is what statements on `*sql.DB` read and write;
* `txs`: the open transactions, each with the writes it has staged, oldest first;
* `nextTx`: the number the next transaction handle gets;
* `clock`: the store's current timestamp;
* `faults`: what the driver answers to the coming calls, one entry per call that reaches it:
  `some fault` is a `Fault`, `none` (or an exhausted schedule) lets the call through.  A
  rejection by the store (a violated constraint of whichever schema is deployed, a
  cancelled context, a lost connection) is such a fault;
* `uuids`: what `uuid.NewV7` answers to the coming calls: `some id`, or `none` for a failure;
* `log`: the calls into `database/sql` made so far, oldest first. -/
structure World where
  tables : Tables
  txs : List (Nat × List Stmt) := []
  nextTx : Nat := 0
  clock : Time := 0
  faults : List (Option Fault) := []
  uuids : List (Option String) := []
  log : List Event := []
  deriving DecidableEq, Repr

/-- Append one call to the log. -/
def World.emit (w : World) (c : Call) (err : Option Error) : World :=
  { w with log := w.log ++ [{ call := c, err := err }] }

/-- Take the driver's answer to the next call off the schedule, for a call without a result
set (`BeginTx`, `ExecContext`, `Commit`, `Rollback`). -/
def World.fault (w : World) : Option Error × World :=
  match w.faults with
  | [] => (none, w)
  | some (.fail msg) :: rest => (some (.other msg), { w with faults := rest })
  | _ :: rest => (none, { w with faults := rest })

/-- Take the driver's answer to the next call off the schedule, for a query. -/
def World.queryFault (w : World) : Option Fault × World :=
  match w.faults with
  | [] => (none, w)
  | f :: rest => (f, { w with faults := rest })

/-- Stage one more write in the first open transaction numbered `id`. -/
def stage (id : Nat) (s : Stmt) : List (Nat × List Stmt) → List (Nat × List Stmt)
  | [] => []
  | (k, pending) :: rest =>
    if k = id then (k, pending ++ [s]) :: rest else (k, pending) :: stage id s rest

/-- Remove the first open transaction numbered `id`. -/
def close (id : Nat) : List (Nat × List Stmt) → List (Nat × List Stmt)
  | [] => []
  | (k, pending) :: rest =>
    if k = id then rest else (k, pending) :: close id rest

/-- The result of `ExecContext` (`sql.Result`). -/
structure Result where
  rows : Nat
  deriving DecidableEq, Repr

/-- The method `RowsAffected` of `sql.Result`. -/
def Result.RowsAffected (r : Result) : Except Error Nat := .ok r.rows

/-- The method `db.BeginTx(ctx, nil)`. -/
def DB.BeginTx (w : World) : Except Error Tx × World :=
  match w.fault with
  | (some err, w1) => (.error err, w1.emit .BeginTx (some err))
  | (none, w1) =>
    (.ok { id := w1.nextTx },
     { w1.emit .BeginTx none with txs := (w1.nextTx, []) :: w1.txs, nextTx := w1.nextTx + 1 })

/-- The method `db.ExecContext(ctx, query, args...)`: the statement runs on the committed
tables and is committed at once. -/
def DB.ExecContext (s : Stmt) (w : World) : Except Error Result × World :=
  match w.fault with
  | (some err, w1) => (.error err, w1.emit (.Exec .db s) (some err))
  | (none, w1) =>
    (.ok { rows := (s.run w1.clock w1.tables).2 },
     { w1.emit (.Exec .db s) none with tables := (s.run w1.clock w1.tables).1 })

/-- The result set `*sql.Rows` once the loop `for rows.Next()` has run: the rows the loop
scanned, and what `rows.Err()` reports afterwards. -/
structure Rows (α : Type) where
  scanned : List α
  Err : Option Error

/-- The methods `db.QueryContext` and `db.QueryRowContext` followed by the iteration over
the rows: the query reads the committed tables.  The logged error is the one the driver
reported for the call or during the iteration. -/
def DB.QueryContext {α : Type} (q : Query) (rows : Tables → Except Error (List α))
    (w : World) : Except Error (Rows α) × World :=
  match w.queryFault with
  | (some (.fail msg), w1) => (.error (.other msg), w1.emit (.Query q) (some (.other msg)))
  | (some (.cut k msg), w1) =>
    match rows w1.tables with
    | .error err => (.error err, w1.emit (.Query q) (some err))
    | .ok all =>
      (.ok { scanned := all.take k, Err := some (.other msg) },
       w1.emit (.Query q) (some (.other msg)))
  | (none, w1) =>
    match rows w1.tables with
    | .error err => (.error err, w1.emit (.Query q) (some err))
    | .ok all => (.ok { scanned := all, Err := none }, w1.emit (.Query q) none)

/-- The method `tx.ExecContext(ctx, query, args...)`: the statement is staged in the
transaction and sees the committed rows together with the writes staged before it.  A handle
that has been committed or rolled back answers `sql.ErrTxDone`. -/
def Tx.ExecContext (tx : Tx) (s : Stmt) (w : World) : Except Error Result × World :=
  match w.txs.lookup tx.id with
  | none => (.error .ErrTxDone, w.emit (.Exec (.tx tx.id) s) (some .ErrTxDone))
  | some pending =>
    match w.fault with
    | (some err, w1) => (.error err, w1.emit (.Exec (.tx tx.id) s) (some err))
    | (none, w1) =>
      (.ok { rows := (s.run w1.clock (replay w1.clock pending w1.tables)).2 },
       { w1.emit (.Exec (.tx tx.id) s) none with txs := stage tx.id s w1.txs })

/-- The method `tx.Commit()`: the staged writes reach the committed tables, all of them or,
when the commit fails, none; the handle is done either way. -/
def Tx.Commit (tx : Tx) (w : World) : Option Error × World :=
  match w.txs.lookup tx.id with
  | none => (some .ErrTxDone, w.emit (.Commit tx.id) (some .ErrTxDone))
  | some pending =>
    match ({ w with txs := close tx.id w.txs } : World).fault with
    | (some err, w1) => (some err, w1.emit (.Commit tx.id) (some err))
    | (none, w1) =>
      (none, { w1.emit (.Commit tx.id) none with tables := replay w1.clock pending w1.tables })

/-- The method `tx.Rollback()`: the staged writes are dropped; the handle is done whether or
not the driver reports an error. -/
def Tx.Rollback (tx : Tx) (w : World) : Option Error × World :=
  match w.txs.lookup tx.id with
  | none => (some .ErrTxDone, w.emit (.Rollback tx.id) (some .ErrTxDone))
  | some _ =>
    match ({ w with txs := close tx.id w.txs } : World).fault with
    | (some err, w1) => (some err, w1.emit (.Rollback tx.id) (some err))
    | (none, w1) => (none, w1.emit (.Rollback tx.id) none)

/-- The function `uuid.NewV7()` followed by `String()`. -/
def uuid.NewV7 (w : World) : Except Error String × World :=
  match w.uuids with
  | [] => (.error (.other "uuid: no identifier available"), w)
  | none :: rest => (.error (.other "uuid: random source failed"), { w with uuids := rest })
  | some id :: rest => (.ok id, { w with uuids := rest })

/-! ## `internal/infra/driver/transaction.go` -/

namespace postgres

/-- The calls `WithTransaction` makes on `*sql.DB` and on the `*sql.Tx` it obtains, over a
state `σ` and a handle type `τ`. -/
structure SqlDB (σ τ : Type) where
  BeginTx : σ → Except Error τ × σ
  Rollback : τ → σ → Option Error × σ
  Commit : τ → σ → Option Error × σ

/-- The struct `PostgresTransaction`. -/
structure PostgresTransaction (σ τ : Type) where
  DB : SqlDB σ τ

/-- The expression `fmt.Errorf("transaction error: %v, rollback error: %v", err, rbErr)`. -/
def rollbackErrorf (err rbErr : Error) : Error :=
  .errorf ("transaction error: " ++ err.Error ++ ", rollback error: " ++ rbErr.Error)

/-- The method `PostgresTransaction.WithTransaction`. -/
def PostgresTransaction.WithTransaction {σ τ : Type} (p : PostgresTransaction σ τ)
    (fn : τ → σ → Option Error × σ) (s : σ) : Option Error × σ :=
  match p.DB.BeginTx s with
  | (.error err, s1) => (some err, s1)
  | (.ok tx, s1) =>
    match fn tx s1 with
    | (some err, s2) =>
      match p.DB.Rollback tx s2 with
      | (some rbErr, s3) => (some (rollbackErrorf err rbErr), s3)
      | (none, s3) => (some err, s3)
    | (none, s2) => p.DB.Commit tx s2

/-- The constructor `NewPostgresTransaction(db)`, on the store of this development. -/
def NewPostgresTransaction : PostgresTransaction World Tx :=
  { DB := { BeginTx := DB.BeginTx, Rollback := Tx.Rollback, Commit := Tx.Commit } }

end postgres

/-! ## `internal/infra`: the repositories -/

namespace infra

/-- The method `row.Scan` on the result of `QueryRowContext`: the first row; without one,
the error of the iteration if there is one, else `sql.ErrNoRows`. -/
def scanRow {α : Type} : Except Error (Rows α) → Except Error α
  | .error err => .error err
  | .ok rows =>
    match rows.scanned with
    | r :: _ => .ok r
    | [] =>
      match rows.Err with
      | some err => .error err
      | none => .error .ErrNoRows

namespace taskRepo

/-- The method `taskRepo.CreateTask`. -/
def CreateTask (tx : Tx) (arg : CreateTaskParam) (w : World) : Option Error × World :=
  match tx.ExecContext (.insertTask arg.ID arg.Title arg.Description arg.LimitedAt arg.IsEnd) w with
  | (r, w1) => (errOf r, w1)

/-- The method `taskRepo.GetTask`. -/
def GetTask (arg : GetTaskParam) (w : World) : Except Error Task × World :=
  match DB.QueryContext (.taskByID arg.ID) (selectTaskByID arg.ID) w with
  | (rows, w1) => (scanRow rows, w1)

/-- The method `taskRepo.ListTask`.  After the loop it consults `rows.Err()`. -/
def ListTask (arg : ListTaskParam) (w : World) : Except Error (List Task) × World :=
  match DB.QueryContext (.taskPage arg.Limit arg.Offset)
      (selectTaskPage arg.Limit arg.Offset) w with
  | (.error err, w1) => (.error err, w1)
  | (.ok rows, w1) =>
    match rows.Err with
    | some err => (.error err, w1)
    | none => (.ok rows.scanned, w1)

/-- The method `taskRepo.UpdateTask`. -/
def UpdateTask (tx : Tx) (arg : UpdateTaskParam) (w : World) : Option Error × World :=
  match tx.ExecContext (.updateTask arg.Title arg.Description arg.LimitedAt arg.IsEnd arg.ID) w with
  | (r, w1) => (errOf r, w1)

/-- The method `taskRepo.DeleteTask`.  The statement is executed on `t.db`; the parameter
`tx` is not used. -/
def DeleteTask (_tx : Tx) (arg : DeleteTaskParam) (w : World) : Option Error × World :=
  match DB.ExecContext (.deleteTask arg.ID) w with
  | (.error err, w1) => (some err, w1)
  | (.ok row, w1) =>
    match row.RowsAffected with
    | .error err => (some err, w1)
    | .ok count => if count = 0 then (some .ErrNoRows, w1) else (none, w1)

end taskRepo

namespace taskTagRepo

/-- The method `taskTagRepo.CreateTaskTag`. -/
def CreateTaskTag (tx : Tx) (arg : CreateTaskTagParam) (w : World) : Option Error × World :=
  match tx.ExecContext (.insertTaskTag arg.TaskID arg.TagID) w with
  | (r, w1) => (errOf r, w1)

/-- The method `taskTagRepo.GetTaskTagIDs`.  After the loop it returns the rows it scanned;
it does not consult `rows.Err()`. -/
def GetTaskTagIDs (arg : GetTaskTagParam) (w : World) : Except Error (List TaskTag) × World :=
  match DB.QueryContext (.taskTagByTaskID arg.TaskID) (selectTaskTagByTaskID arg.TaskID) w with
  | (.error err, w1) => (.error err, w1)
  | (.ok rows, w1) => (.ok rows.scanned, w1)

/-- The method `taskTagRepo.DeleteTaskTags`. -/
def DeleteTaskTags (tx : Tx) (arg : DeleteTaskTagParam) (w : World) : Option Error × World :=
  match tx.ExecContext (.deleteTaskTag arg.TaskID) w with
  | (r, w1) => (errOf r, w1)

end taskTagRepo

namespace tagRepo

/-- The method `tagRepo.GetTag`. -/
def GetTag (arg : GetTagParam) (w : World) : Except Error Tag × World :=
  match DB.QueryContext (.tagByID arg.ID) (selectTagByID arg.ID) w with
  | (rows, w1) => (scanRow rows, w1)

end tagRepo

end infra

/-! ## `proto/v1`: the request and response messages

The generated package `proto/v1` is not among the sources.  The messages below have the
fields that `internal/usecase/task.go` reads and writes, under the names it uses;
a message field of type `*timestamppb.Timestamp` is an optional instant. -/

namespace timestamppb

/-- The function `timestamppb.New(t)`. -/
def New (t : Time) : Option Time := some t

/-- The method `AsTime()`; on a nil timestamp it answers the Unix epoch. -/
def AsTime (ts : Option Time) : Time := ts.getD 0

end timestamppb

namespace task

/-- The message `task.Tag`. -/
structure Tag where
  Id : String
  Name : String
  deriving DecidableEq, Repr

/-- The message `task.Task`. -/
structure Task where
  Id : String
  Title : String
  Description : String
  CreatedAt : Option Time
  UpdatedAt : Option Time
  LimitedAt : Option Time
  IsEnd : Bool
  Tags : List Tag
  deriving DecidableEq, Repr

/-- The message `task.CreateTaskRequest`. -/
structure CreateTaskRequest where
  Title : String
  Description : String
  LimitedAt : Option Time
  TagIds : List String
  deriving DecidableEq, Repr

/-- The message `task.CreateTaskResponse`. -/
structure CreateTaskResponse where
  Id : String
  deriving DecidableEq, Repr

/-- The message `task.GetTaskRequest`. -/
structure GetTaskRequest where
  Id : String
  deriving DecidableEq, Repr

/-- The message `task.GetTaskResponse`. -/
structure GetTaskResponse where
  Task : Task
  deriving DecidableEq, Repr

/-- The message `task.ListTaskRequest`; `int32` fields. -/
structure ListTaskRequest where
  Limit : Int
  Offset : Int
  deriving DecidableEq, Repr

/-- The message `task.ListTaskResponse`. -/
structure ListTaskResponse where
  Tasks : List Task
  deriving DecidableEq, Repr

/-- The message `task.UpdateTaskRequest`. -/
structure UpdateTaskRequest where
  Id : String
  Title : String
  Description : String
  LimitedAt : Option Time
  IsEnd : Bool
  TagIds : List String
  deriving DecidableEq, Repr

/-- The message `task.UpdateTaskResponse`. -/
structure UpdateTaskResponse where
  Success : Bool
  deriving DecidableEq, Repr

/-- The message `task.DeleteTaskRequest`. -/
structure DeleteTaskRequest where
  Id : String
  deriving DecidableEq, Repr

/-- The message `task.DeleteTaskResponse`. -/
structure DeleteTaskResponse where
  Success : Bool
  deriving DecidableEq, Repr

end task

/-! ## `internal/usecase/task.go`

The service is the one `NewTaskService` builds in `cmd/app/main.go` and in `task_test.go`:
the three repositories of `internal/infra` and `NewPostgresTransaction`, all on one
database. -/

namespace usecase

namespace taskService

/-- The loop `for _, tagID := range req.TagIds` of `CreateTask` and `UpdateTask`: one
`CreateTaskTag` per element, in order, stopping at the first error. -/
def createTaskTags (tx : Tx) (taskID : String) : List String → World → Option Error × World
  | [], w => (none, w)
  | tagID :: rest, w =>
    match infra.taskTagRepo.CreateTaskTag tx { TaskID := taskID, TagID := tagID } w with
    | (some err, w1) => (some err, w1)
    | (none, w1) => createTaskTags tx taskID rest w1

/-- The guard `len(req.TagIds) == 0 || req.TagIds[0] == ""`. -/
def noTags (tagIds : List String) : Bool :=
  tagIds.length == 0 || tagIds[0]? == some ""

/-- The unit of work that `CreateTask` hands to `WithTransaction`. -/
def createTaskFn (uuid : String) (req : task.CreateTaskRequest) (tx : Tx) (w : World) :
    Option Error × World :=
  let param : CreateTaskParam :=
    { ID := uuid, Title := req.Title, Description := req.Description,
      LimitedAt := timestamppb.AsTime req.LimitedAt, IsEnd := false }
  match infra.taskRepo.CreateTask tx param w with
  | (some err, w1) => (some err, w1)
  | (none, w1) =>
    if noTags req.TagIds then (none, w1)
    else createTaskTags tx param.ID req.TagIds w1

/-- The method `taskService.CreateTask`. -/
def CreateTask (req : task.CreateTaskRequest) (w : World) :
    Except Error task.CreateTaskResponse × World :=
  match uuid.NewV7 w with
  | (.error err, w1) => (.error err, w1)
  | (.ok uuid, w1) =>
    match postgres.NewPostgresTransaction.WithTransaction (createTaskFn uuid req) w1 with
    | (some err, w2) => (.error err, w2)
    | (none, w2) => (.ok { Id := uuid }, w2)

/-- The loop `for _, tagID := range taskTagIDs` of `GetTask` and `ListTask`: one `GetTag` per
association row, in order, each result appended to `protoTags`, stopping at the first
error. -/
def resolveTags : List TaskTag → List task.Tag → World → Except Error (List task.Tag) × World
  | [], protoTags, w => (.ok protoTags, w)
  | tagID :: rest, protoTags, w =>
    match infra.tagRepo.GetTag { ID := tagID.TagID } w with
    | (.error err, w1) => (.error err, w1)
    | (.ok tag, w1) => resolveTags rest (protoTags ++ [{ Id := tag.ID, Name := tag.Name }]) w1

/-- The message that `GetTask` and `ListTask` build from a Task row and its resolved tags. -/
def toProto (taskDetail : Task) (protoTags : List task.Tag) : task.Task :=
  { Id := taskDetail.ID
    Title := taskDetail.Title
    Description := taskDetail.Description
    CreatedAt := timestamppb.New taskDetail.CreatedAt
    UpdatedAt := timestamppb.New taskDetail.UpdateAt
    LimitedAt := timestamppb.New taskDetail.LimitedAt
    IsEnd := taskDetail.IsEnd
    Tags := protoTags }

/-- The method `taskService.GetTask`. -/
def GetTask (req : task.GetTaskRequest) (w : World) :
    Except Error task.GetTaskResponse × World :=
  let param : GetTaskParam := { ID := req.Id }
  match infra.taskRepo.GetTask param w with
  | (.error err, w1) => (.error err, w1)
  | (.ok taskDetail, w1) =>
    match infra.taskTagRepo.GetTaskTagIDs { TaskID := taskDetail.ID } w1 with
    | (.error err, w2) => (.error err, w2)
    | (.ok taskTagIDs, w2) =>
      match resolveTags taskTagIDs [] w2 with
      | (.error err, w3) => (.error err, w3)
      | (.ok protoTags, w3) => (.ok { Task := toProto taskDetail protoTags }, w3)

/-- The loop `for _, taskDetail := range tasks` of `ListTask`: the association fetch and the
tag fan-out for each Task row, in order, each result appended to `taskList`, stopping at
the first error. -/
def listTasks : List Task → List task.Task → World → Except Error (List task.Task) × World
  | [], taskList, w => (.ok taskList, w)
  | taskDetail :: rest, taskList, w =>
    match infra.taskTagRepo.GetTaskTagIDs { TaskID := taskDetail.ID } w with
    | (.error err, w1) => (.error err, w1)
    | (.ok taskTagIDs, w1) =>
      match resolveTags taskTagIDs [] w1 with
      | (.error err, w2) => (.error err, w2)
      | (.ok protoTags, w2) => listTasks rest (taskList ++ [toProto taskDetail protoTags]) w2

/-- The method `taskService.ListTask`. -/
def ListTask (req : task.ListTaskRequest) (w : World) :
    Except Error task.ListTaskResponse × World :=
  let req : task.ListTaskRequest := if req.Limit = 0 then { req with Limit := 10 } else req
  let param : ListTaskParam := { Limit := req.Limit, Offset := req.Offset }
  match infra.taskRepo.ListTask param w with
  | (.error err, w1) => (.error err, w1)
  | (.ok tasks, w1) =>
    match listTasks tasks [] w1 with
    | (.error err, w2) => (.error err, w2)
    | (.ok taskList, w2) => (.ok { Tasks := taskList }, w2)

/-- The unit of work that `UpdateTask` hands to `WithTransaction`. -/
def updateTaskFn (req : task.UpdateTaskRequest) (tx : Tx) (w : World) : Option Error × World :=
  let param : UpdateTaskParam :=
    { ID := req.Id, Title := req.Title, Description := req.Description,
      LimitedAt := timestamppb.AsTime req.LimitedAt, IsEnd := req.IsEnd }
  match infra.taskRepo.UpdateTask tx param w with
  | (some err, w1) => (some err, w1)
  | (none, w1) =>
    match infra.taskTagRepo.DeleteTaskTags tx { TaskID := req.Id } w1 with
    | (some err, w2) => (some err, w2)
    | (none, w2) =>
      if noTags req.TagIds then (none, w2)
      else createTaskTags tx param.ID req.TagIds w2

/-- The method `taskService.UpdateTask`.  A nil `TagIds` and an empty one are the same list
here, so the replacement of nil by the empty slice leaves the request as it is. -/
def UpdateTask (req : task.UpdateTaskRequest) (w : World) :
    Except Error task.UpdateTaskResponse × World :=
  match postgres.NewPostgresTransaction.WithTransaction (updateTaskFn req) w with
  | (some err, w1) => (.error err, w1)
  | (none, w1) => (.ok { Success := true }, w1)

/-- The unit of work that `DeleteTask` hands to `WithTransaction`. -/
def deleteTaskFn (req : task.DeleteTaskRequest) (tx : Tx) (w : World) : Option Error × World :=
  match infra.taskTagRepo.DeleteTaskTags tx { TaskID := req.Id } w with
  | (some err, w1) => (some err, w1)
  | (none, w1) =>
    let param : DeleteTaskParam := { ID := req.Id }
    match infra.taskRepo.DeleteTask tx param w1 with
    | (some err, w2) => (some err, w2)
    | (none, w2) => (none, w2)

/-- The method `taskService.DeleteTask`. -/
def DeleteTask (req : task.DeleteTaskRequest) (w : World) :
    Except Error task.DeleteTaskResponse × World :=
  match postgres.NewPostgresTransaction.WithTransaction (deleteTaskFn req) w with
  | (some err, w1) => (.error err, w1)
  | (none, w1) => (.ok { Success := true }, w1)

end taskService

end usecase

/-! ## Observers and auxiliary definitions used by the statements below -/

namespace postgres

/-- One invocation made by `WithTransaction`, with its outcome. -/
inductive Step where
  | begin (err : Option Error)
  | work (err : Option Error)
  | rollback (err : Option Error)
  | commit (err : Option Error)
  deriving DecidableEq, Repr

/-- The driver `p` with a recorder attached: every call of `BeginTx`, `Rollback` and `Commit`
does what it does in `p` and appends itself, with its outcome, to a trace that the driver
and the unit of work cannot see. -/
def traced {σ τ : Type} (p : PostgresTransaction σ τ) : PostgresTransaction (σ × List Step) τ :=
  { DB :=
    { BeginTx := fun st =>
        ((p.DB.BeginTx st.1).1, (p.DB.BeginTx st.1).2,
         st.2 ++ [.begin (errOf (p.DB.BeginTx st.1).1)])
      Rollback := fun tx st =>
        ((p.DB.Rollback tx st.1).1, (p.DB.Rollback tx st.1).2,
         st.2 ++ [.rollback (p.DB.Rollback tx st.1).1])
      Commit := fun tx st =>
        ((p.DB.Commit tx st.1).1, (p.DB.Commit tx st.1).2,
         st.2 ++ [.commit (p.DB.Commit tx st.1).1]) } }

/-- The unit of work `fn` with the same recorder attached. -/
def tracedWork {σ τ : Type} (fn : τ → σ → Option Error × σ) :
    τ → σ × List Step → Option Error × (σ × List Step) :=
  fun tx st => ((fn tx st.1).1, (fn tx st.1).2, st.2 ++ [.work (fn tx st.1).1])

/-- The reference behaviour of the transaction executor, as a table over the recorded
invocations and the returned error:
* begin fails: nothing else is invoked, and the begin error is returned;
* the unit of work fails and rollback succeeds: the error of the unit of work is returned;
* the unit of work fails and rollback fails: an error built by `fmt.Errorf` is returned whose
  message contains the message of both;
* the unit of work succeeds: commit is invoked and its outcome is returned.
No other sequence of invocations is allowed. -/
def WithTransactionRef : List Step → Option Error → Bool
  | [.begin (some beginErr)], result => result = some beginErr
  | [.begin none, .work (some workErr), .rollback none], result => result = some workErr
  | [.begin none, .work (some workErr), .rollback (some rbErr)], result =>
    match result with
    | some (.errorf msg) =>
      decide (workErr.Error.data <:+: msg.data) && decide (rbErr.Error.data <:+: msg.data)
    | _ => false
  | [.begin none, .work none, .commit commitErr], result => result = commitErr
  | _, _ => false

end postgres

open postgres usecase.taskService

/-- Run the statements on the transaction in order, stopping at the first error. -/
def execAll (tx : Tx) : List Stmt → World → Option Error × World
  | [], w => (none, w)
  | s :: rest, w =>
    match tx.ExecContext s w with
    | (.error err, w1) => (some err, w1)
    | (.ok _, w1) => execAll tx rest w1

/-- The event of a statement that went through on transaction `n`. -/
def okExec (n : Nat) (s : Stmt) : Event := { call := .Exec (.tx n) s, err := none }

/-- The state right after a successful `BeginTx`. -/
def begun (w : World) : World :=
  { w with faults := w.faults.tail, log := w.log ++ [{ call := .BeginTx, err := none }],
           txs := (w.nextTx, []) :: w.txs, nextTx := w.nextTx + 1 }

/-- The tag identifiers an association is written for: none under the guard `noTags`. -/
def effectiveTags (tagIds : List String) : List String :=
  if noTags tagIds then [] else tagIds

/-- The statements of the unit of work of `CreateTask`, in order. -/
def createPlan (uuid : String) (req : task.CreateTaskRequest) : List Stmt :=
  .insertTask uuid req.Title req.Description (timestamppb.AsTime req.LimitedAt) false ::
    (effectiveTags req.TagIds).map (.insertTaskTag uuid)

/-- The statements of the unit of work of `UpdateTask`, in order. -/
def updatePlan (req : task.UpdateTaskRequest) : List Stmt :=
  .updateTask req.Title req.Description (timestamppb.AsTime req.LimitedAt) req.IsEnd req.Id ::
    .deleteTaskTag req.Id :: (effectiveTags req.TagIds).map (.insertTaskTag req.Id)

/-- Is the call an `INSERT` into the Task table or into the association table? -/
def Call.isInsert : Call → Bool
  | .Exec _ (.insertTask ..) => true
  | .Exec _ (.insertTaskTag ..) => true
  | _ => false

/-- The message built from a Tag row. -/
def tagProto (g : Tag) : task.Tag := { Id := g.ID, Name := g.Name }

/-- A small store: one task `u0` tagged `t1`, and two tags. -/
def demoTables : Tables :=
  { task := [{ ID := "u0", Title := "old", Description := "d0", IsEnd := false,
               CreatedAt := 1, UpdateAt := 1, LimitedAt := 2 }]
    tag := [{ ID := "t1", Name := "one" }, { ID := "t2", Name := "two" }]
    task_tag := [{ TaskID := "u0", TagID := "t1" }] }

/-- The small store with a healthy driver and one identifier ready to be generated. -/
def demoWorld : World :=
  { tables := demoTables, uuids := [some "u1"], clock := 5 }

/-- A request to create a task with two tags. -/
def demoCreate : task.CreateTaskRequest :=
  { Title := "X", Description := "d", LimitedAt := some 9, TagIds := ["t1", "t2"] }

/-- A request to update task `u0` and replace its tags by `t2`. -/
def demoUpdate : task.UpdateTaskRequest :=
  { Id := "u0", Title := "Y", Description := "e", LimitedAt := some 7, IsEnd := true,
    TagIds := ["t2"] }

/-- How the fan-out relates a Task row of `tbl` to the entry built for it: the entry is the
row with a tag list resolved, in order, from association rows that are the first ones of the
table's rows for the task, and all of them when `healthy`. -/
def Assembled (tbl : Tables) (healthy : Prop) (row : Task) (t : task.Task) : Prop :=
  ∃ fetched tags, t = toProto row tags ∧
    fetched <+: tbl.task_tag.filter (fun r => r.TaskID == row.ID) ∧
    (healthy → fetched = tbl.task_tag.filter (fun r => r.TaskID == row.ID)) ∧
    fetched.map (fun a => (tbl.tag.find? (fun g => g.ID == a.TagID)).map tagProto)
      = tags.map some

/-- A store whose only tag has the empty string as its identifier. -/
def demoBlank : World :=
  { tables := { task := [], tag := [{ ID := "", Name := "blank" }], task_tag := [] }
    uuids := [some "u1"], clock := 5 }

/-- The request `CreateTask(title="X", tagIds=[""])`. -/
def demoBlankCreate : task.CreateTaskRequest :=
  { Title := "X", Description := "d", LimitedAt := some 9, TagIds := [""] }

/-- The task created by `demoBlankCreate` on `demoBlank`, as `GetTask` returns it. -/
def demoBlankTask : task.GetTaskResponse :=
  { Task := { Id := "u1", Title := "X", Description := "d", CreatedAt := some 5,
              UpdatedAt := some 5, LimitedAt := some 9, IsEnd := false, Tags := [] } }

/-- A store with one task `u0` tagged `t1` and `t2`, in that row order. -/
def demoTagged : World :=
  { tables :=
      { task := [{ ID := "u0", Title := "old", Description := "d0", IsEnd := false,
                   CreatedAt := 1, UpdateAt := 1, LimitedAt := 2 }]
        tag := [{ ID := "t1", Name := "one" }, { ID := "t2", Name := "two" }]
        task_tag := [{ TaskID := "u0", TagID := "t1" }, { TaskID := "u0", TagID := "t2" }] } }

/-- The store `demoTagged` with a driver that lets the Task fetch through and then breaks
the iteration over the association rows after the first row. -/
def demoTaggedCut : World :=
  { demoTagged with faults := [none, some (.cut 1 "connection reset")] }

/-- The task `u0` of `demoTagged` with the first of its two tags only. -/
def demoPartialTask : task.Task :=
  { Id := "u0", Title := "old", Description := "d0", CreatedAt := some 1, UpdatedAt := some 1,
    LimitedAt := some 2, IsEnd := false, Tags := [{ Id := "t1", Name := "one" }] }

/-- A store with three tasks; only `u0` has a tag. -/
def demoThree : World :=
  { tables :=
      { task := [{ ID := "u0", Title := "a", Description := "", IsEnd := false,
                   CreatedAt := 1, UpdateAt := 1, LimitedAt := 2 },
                 { ID := "u1", Title := "b", Description := "", IsEnd := true,
                   CreatedAt := 3, UpdateAt := 3, LimitedAt := 4 },
                 { ID := "u2", Title := "c", Description := "", IsEnd := false,
                   CreatedAt := 5, UpdateAt := 5, LimitedAt := 6 }]
        tag := [{ ID := "t1", Name := "one" }]
        task_tag := [{ TaskID := "u0", TagID := "t1" }] } }

/-- The first page of two tasks of `demoThree`. -/
def demoPage : task.ListTaskResponse :=
  { Tasks :=
      [{ Id := "u0", Title := "a", Description := "", CreatedAt := some 1, UpdatedAt := some 1,
         LimitedAt := some 2, IsEnd := false, Tags := [{ Id := "t1", Name := "one" }] },
       { Id := "u1", Title := "b", Description := "", CreatedAt := some 3, UpdatedAt := some 3,
         LimitedAt := some 4, IsEnd := true, Tags := [] }] }

/-- A store with two tasks `u0` and `u1`, both tagged `t1`, and a driver that lets the first
three calls through and then breaks the iteration of the fourth query before its first
row. -/
def demoPairCut : World :=
  { tables :=
      { task := [{ ID := "u0", Title := "a", Description := "", IsEnd := false,
                   CreatedAt := 1, UpdateAt := 1, LimitedAt := 2 },
                 { ID := "u1", Title := "b", Description := "", IsEnd := true,
                   CreatedAt := 3, UpdateAt := 3, LimitedAt := 4 }]
        tag := [{ ID := "t1", Name := "one" }]
        task_tag := [{ TaskID := "u0", TagID := "t1" }, { TaskID := "u1", TagID := "t1" }] }
    faults := [none, none, none, some (.cut 0 "connection reset")] }

/-- The task `u1` of `demoPairCut` with the tags given. -/
def demoPairTask (tags : List task.Tag) : task.Task :=
  { Id := "u1", Title := "b", Description := "", CreatedAt := some 3, UpdatedAt := some 3,
    LimitedAt := some 4, IsEnd := true, Tags := tags }

/-- What `ListTask(limit=10, offset=0)` returns on `demoPairCut`: `u1` without its tag. -/
def demoPairPage : task.ListTaskResponse :=
  { Tasks :=
      [{ Id := "u0", Title := "a", Description := "", CreatedAt := some 1,
         UpdatedAt := some 1, LimitedAt := some 2, IsEnd := false,
         Tags := [{ Id := "t1", Name := "one" }] },
       demoPairTask []] }

/-! ## Facts about the store and the transaction executor -/

theorem lookup_stage (id : Nat) (s : Stmt) : ∀ txs : List (Nat × List Stmt),
    (stage id s txs).lookup id = (txs.lookup id).map (· ++ [s])
  | [] => by simp [stage]
  | (k, p) :: rest => by
    by_cases h : k = id
    · subst h; simp [stage, List.lookup]
    · have h2 : (id == k) = false := by simpa using fun e => h e.symm
      simp [stage, h, List.lookup, h2, lookup_stage id s rest]

theorem fault_nil {w : World} (h : w.faults = []) : w.fault = (none, w) := by
  simp [World.fault, h]

/-- What one `tx.ExecContext` does to the state, whatever its outcome. -/
theorem txExec_spec (tx : Tx) (s : Stmt) (w : World) :
    (tx.ExecContext s w).2.tables = w.tables ∧ (tx.ExecContext s w).2.clock = w.clock ∧
      (tx.ExecContext s w).2.log
        = w.log ++ [{ call := .Exec (.tx tx.id) s, err := errOf (tx.ExecContext s w).1 }] ∧
      (errOf (tx.ExecContext s w).1 = none →
        (tx.ExecContext s w).2.txs = stage tx.id s w.txs) ∧
      errOf (tx.ExecContext s w).1 ≠ some .ErrNoRows := by
  unfold Tx.ExecContext
  rcases w.txs.lookup tx.id with _ | p
  · simp [World.emit, errOf]
  · rcases hf : w.faults with _ | ⟨_ | (m | ⟨k, m⟩), fs⟩ <;> simp [World.fault, hf, World.emit, errOf]

/-- With no fault scheduled, a statement on an open transaction goes through. -/
theorem txExec_healthy (tx : Tx) (s : Stmt) (w : World) (p : List Stmt)
    (hopen : w.txs.lookup tx.id = some p) (hf : w.faults = []) :
    errOf (tx.ExecContext s w).1 = none ∧ (tx.ExecContext s w).2.faults = [] := by
  unfold Tx.ExecContext
  simp [hopen, World.fault, hf, World.emit, errOf]

/-- What a run of statements on a transaction does to the state. -/
theorem execAll_spec (tx : Tx) : ∀ (ss : List Stmt) (w : World),
    (execAll tx ss w).2.tables = w.tables ∧ (execAll tx ss w).2.clock = w.clock ∧
      (∃ evs, (execAll tx ss w).2.log = w.log ++ evs ∧
        (∀ e ∈ evs, ∃ s ∈ ss, e.call = .Exec (.tx tx.id) s) ∧
        ((execAll tx ss w).1 = none → evs = ss.map (okExec tx.id))) ∧
      ((execAll tx ss w).1 = none →
        (execAll tx ss w).2.txs = ss.foldl (fun acc s => stage tx.id s acc) w.txs) ∧
      (execAll tx ss w).1 ≠ some .ErrNoRows
  | [], w => by simp [execAll]
  | s :: rest, w => by
    obtain ⟨h1, h2, h3, h4, h5⟩ := txExec_spec tx s w
    unfold execAll
    rcases hr : tx.ExecContext s w with ⟨err | res, w1⟩
    · rw [hr] at h1 h2 h3 h4 h5
      simp only [errOf] at h3 h5
      refine ⟨h1, h2, ⟨_, h3, ?_, ?_⟩, ?_, ?_⟩
      · intro e he
        simp only [List.mem_singleton] at he
        subst he
        exact ⟨s, by simp, rfl⟩
      · simp
      · simp
      · simpa using h5
    · rw [hr] at h1 h2 h3 h4 h5
      simp only [errOf] at h3 h4
      obtain ⟨g1, g2, ⟨evs, g3, g4, g5⟩, g6, g7⟩ := execAll_spec tx rest w1
      refine ⟨g1.trans h1, g2.trans h2, ⟨okExec tx.id s :: evs, ?_, ?_, ?_⟩, ?_, g7⟩
      · simp only [g3, h3, List.append_assoc, List.singleton_append, okExec]
      · intro e he
        rcases List.mem_cons.1 he with he | he
        · subst he
          exact ⟨s, by simp, rfl⟩
        · obtain ⟨s2, hs2, hc⟩ := g4 e he
          exact ⟨s2, List.mem_cons_of_mem _ hs2, hc⟩
      · intro hn
        simp only [g5 hn, List.map_cons, okExec]
      · intro hn
        simp only [g6 hn, h4 trivial, List.foldl_cons]

/-- With no fault scheduled, a run of statements on an open transaction goes through. -/
theorem execAll_healthy (tx : Tx) : ∀ (ss : List Stmt) (w : World) (p : List Stmt),
    w.txs.lookup tx.id = some p → w.faults = [] →
      (execAll tx ss w).1 = none ∧ (execAll tx ss w).2.faults = []
  | [], w, _, _, hf => by simp [execAll, hf]
  | s :: rest, w, p, hopen, hf => by
    obtain ⟨h1, h2⟩ := txExec_healthy tx s w p hopen hf
    obtain ⟨_, _, _, h4, _⟩ := txExec_spec tx s w
    unfold execAll
    rcases hr : tx.ExecContext s w with ⟨err | res, w1⟩
    · rw [hr] at h1; simp [errOf] at h1
    · rw [hr] at h1 h2 h4
      have hopen1 : w1.txs.lookup tx.id = some (p ++ [s]) := by
        simp only at h4
        rw [h4 h1, lookup_stage, hopen]; rfl
      exact execAll_healthy tx rest w1 _ hopen1 h2

theorem foldl_stage_head (n : Nat) (rest : List (Nat × List Stmt)) :
    ∀ (ss p : List Stmt),
      ss.foldl (fun acc s => stage n s acc) ((n, p) :: rest) = (n, p ++ ss) :: rest
  | [], p => by simp
  | s :: ss, p => by
    simp [List.foldl_cons, stage, foldl_stage_head n rest ss (p ++ [s])]

theorem beginTx_cases (w : World) :
    (∃ m w1, DB.BeginTx w = (.error (.other m), w1) ∧ w1.tables = w.tables ∧
        w1.clock = w.clock ∧ w1.log = w.log ++ [{ call := .BeginTx, err := some (.other m) }] ∧
        w.faults ≠ []) ∨
      DB.BeginTx w = (.ok { id := w.nextTx }, begun w) := by
  unfold DB.BeginTx begun
  rcases hf : w.faults with _ | ⟨_ | (m | ⟨k, m⟩), fs⟩
  · right; simp [World.fault, hf, World.emit]
  · right; simp [World.fault, hf, World.emit]
  · left
    simp only [World.fault, hf]
    exact ⟨m, _, rfl, by simp [World.emit]⟩
  · right; simp [World.fault, hf, World.emit]

/-- What `tx.Rollback` does to the state, whatever its outcome. -/
theorem rollback_spec (tx : Tx) (w : World) :
    (tx.Rollback w).2.tables = w.tables ∧ (tx.Rollback w).2.clock = w.clock ∧
      (tx.Rollback w).2.log = w.log ++ [{ call := .Rollback tx.id, err := (tx.Rollback w).1 }] ∧
      (tx.Rollback w).1 ≠ some .ErrNoRows := by
  unfold Tx.Rollback
  rcases w.txs.lookup tx.id with _ | p
  · simp [World.emit]
  · rcases hf : w.faults with _ | ⟨_ | (m | ⟨k, m⟩), fs⟩ <;> simp [World.fault, hf, World.emit]

/-- What `tx.Commit` does to the state: the staged writes reach the tables exactly when it
returns no error. -/
theorem commit_spec (tx : Tx) (w : World) (p : List Stmt)
    (hopen : w.txs.lookup tx.id = some p) :
    (tx.Commit w).2.clock = w.clock ∧
      (tx.Commit w).2.log = w.log ++ [{ call := .Commit tx.id, err := (tx.Commit w).1 }] ∧
      ((tx.Commit w).1 = none → (tx.Commit w).2.tables = replay w.clock p w.tables) ∧
      ((tx.Commit w).1 ≠ none → (tx.Commit w).2.tables = w.tables) ∧
      (tx.Commit w).1 ≠ some .ErrNoRows ∧
      (w.faults = [] → (tx.Commit w).1 = none ∧ (tx.Commit w).2.faults = []) := by
  unfold Tx.Commit
  rcases hf : w.faults with _ | ⟨_ | (m | ⟨k, m⟩), fs⟩ <;> simp [hopen, World.fault, hf, World.emit]

/-- The paths through `WithTransaction` on the store of this development. -/
theorem withTx_cases (fn : Tx → World → Option Error × World) (w : World) :
    (∃ m w1, DB.BeginTx w = (.error (.other m), w1) ∧
        NewPostgresTransaction.WithTransaction fn w = (some (.other m), w1)) ∨
    (∃ w2, fn { id := w.nextTx } (begun w) = (none, w2) ∧
        NewPostgresTransaction.WithTransaction fn w = Tx.Commit { id := w.nextTx } w2) ∨
    (∃ err w2, fn { id := w.nextTx } (begun w) = (some err, w2) ∧
        (NewPostgresTransaction.WithTransaction fn w).2 = (Tx.Rollback { id := w.nextTx } w2).2 ∧
        (((Tx.Rollback { id := w.nextTx } w2).1 = none ∧
            (NewPostgresTransaction.WithTransaction fn w).1 = some err) ∨
          ∃ rbErr, (Tx.Rollback { id := w.nextTx } w2).1 = some rbErr ∧
            (NewPostgresTransaction.WithTransaction fn w).1
              = some (rollbackErrorf err rbErr))) := by
  simp only [PostgresTransaction.WithTransaction, NewPostgresTransaction]
  rcases beginTx_cases w with ⟨m, w1, hb, -⟩ | hb
  · left; exact ⟨m, w1, hb, by rw [hb]⟩
  · right
    rw [hb]
    simp only
    rcases hF : fn { id := w.nextTx } (begun w) with ⟨_ | err, w2⟩
    · left; exact ⟨w2, rfl, rfl⟩
    · right
      refine ⟨err, w2, rfl, ?_⟩
      simp only
      rcases hrb : Tx.Rollback { id := w.nextTx } w2 with ⟨_ | rbErr, s3⟩
      · simp
      · simp

theorem withTx_execAll (ss : List Stmt) (w : World) (R : Option Error × World)
    (hR : NewPostgresTransaction.WithTransaction (fun tx => execAll tx ss) w = R) :
    R.2.clock = w.clock ∧
    (R.1 = none →
      R.2.tables = replay w.clock ss w.tables ∧
      R.2.log = w.log ++ { call := .BeginTx, err := none } ::
              (ss.map (okExec w.nextTx) ++ [{ call := .Commit w.nextTx, err := none }])) ∧
    (R.1 ≠ none → R.2.tables = w.tables) ∧
    (∃ evs, R.2.log = w.log ++ evs ∧
        ∀ e ∈ evs, e.call = .BeginTx ∨ (∃ s ∈ ss, e.call = .Exec (.tx w.nextTx) s) ∨
          e.call = .Commit w.nextTx ∨ e.call = .Rollback w.nextTx) ∧
    R.1 ≠ some .ErrNoRows ∧
    (w.faults = [] → R.1 = none ∧ R.2.faults = []) := by
  subst hR
  obtain ⟨g1, g2, ⟨evs, g3, g4, g5⟩, g6, g7⟩ := execAll_spec { id := w.nextTx } ss (begun w)
  have hh := execAll_healthy { id := w.nextTx } ss (begun w) [] (by simp [begun, List.lookup])
  rcases withTx_cases (fun tx => execAll tx ss) w with
    ⟨m, w1, hb, hR⟩ | ⟨w2, hF, hR⟩ | ⟨err, w2, hF, hR2, hR1⟩
  · rcases beginTx_cases w with ⟨m2, w3, hb2, ht, hc, hl, hne⟩ | hb2
    · rw [hb] at hb2
      obtain ⟨hm, hw⟩ := Prod.mk.inj hb2
      subst hw
      rw [hR]
      refine ⟨hc, by simp, fun _ => ht, ⟨_, hl, ?_⟩, by simp, fun h => absurd h hne⟩
      intro e he
      simp only [List.mem_singleton] at he
      subst he; exact Or.inl rfl
    · rw [hb] at hb2; simp at hb2
  · -- the unit of work succeeded: commit
    replace hF : execAll { id := w.nextTx } ss (begun w) = (none, w2) := hF
    rw [hF] at g1 g2 g3 g5 g6 hh
    simp only [true_implies] at g5 g6
    have hopen : w2.txs.lookup w.nextTx = some ss := by
      rw [g6]
      simp [begun, foldl_stage_head, List.lookup]
    obtain ⟨c1, c2, c3, c4, c5, c6⟩ := commit_spec { id := w.nextTx } w2 ss hopen
    simp only at g1 g2 g3
    rw [hR]
    refine ⟨by rw [c1, g2]; rfl, ?_, ?_,
      ⟨{ call := .BeginTx, err := none } ::
        (evs ++ [{ call := .Commit w.nextTx, err := (Tx.Commit { id := w.nextTx } w2).1 }]),
        ?_, ?_⟩, c5, ?_⟩
    · intro hn
      refine ⟨by rw [c3 hn, g1, g2]; rfl, ?_⟩
      rw [c2, hn, g3, g5]
      simp [begun]
    · intro hn
      rw [c4 hn, g1]; rfl
    · rw [c2, g3]
      simp [begun]
    · intro e he
      simp only [List.mem_cons, List.mem_append, List.mem_singleton, List.not_mem_nil, or_false] at he
      rcases he with he | he | he
      · subst he; exact Or.inl rfl
      · exact Or.inr (Or.inl (g4 e he))
      · subst he; exact Or.inr (Or.inr (Or.inl rfl))
    · intro hf
      exact c6 (hh (by simp [begun, hf])).2
  · -- the unit of work failed: rollback
    replace hF : execAll { id := w.nextTx } ss (begun w) = (some err, w2) := hF
    rw [hF] at g1 g2 g3 g7 hh
    obtain ⟨r1, r2, r3, r4⟩ := rollback_spec { id := w.nextTx } w2
    simp only at g1 g2 g3 g7
    have k2 : (NewPostgresTransaction.WithTransaction (fun tx => execAll tx ss) w).1 ≠ none := by
      rcases hR1 with ⟨-, h⟩ | ⟨rb, -, h⟩ <;> simp [h]
    have k3 : (NewPostgresTransaction.WithTransaction (fun tx => execAll tx ss) w).1
        ≠ some .ErrNoRows := by
      rcases hR1 with ⟨-, h⟩ | ⟨rb, -, h⟩
      · rw [h]; exact g7
      · simp [h, rollbackErrorf]
    refine ⟨by rw [hR2, r2, g2]; rfl, fun hn => absurd hn k2,
      fun _ => by rw [hR2, r1, g1]; rfl,
      ⟨{ call := .BeginTx, err := none } ::
        (evs ++ [{ call := .Rollback w.nextTx, err := (Tx.Rollback { id := w.nextTx } w2).1 }]),
        ?_, ?_⟩, k3, ?_⟩
    · rw [hR2, r3, g3]
      simp [begun]
    · intro e he
      simp only [List.mem_cons, List.mem_append, List.mem_singleton, List.not_mem_nil, or_false] at he
      rcases he with he | he | he
      · subst he; exact Or.inl rfl
      · exact Or.inr (Or.inl (g4 e he))
      · subst he; exact Or.inr (Or.inr (Or.inr rfl))
    · intro hf
      have := (hh (by simp [begun, hf])).1
      simp at this

theorem createTaskTags_eq (tx : Tx) (taskID : String) : ∀ (tags : List String) (w : World),
    createTaskTags tx taskID tags w = execAll tx (tags.map (.insertTaskTag taskID)) w
  | [], w => rfl
  | t :: rest, w => by
    simp only [createTaskTags, infra.taskTagRepo.CreateTaskTag, List.map_cons, execAll]
    rcases tx.ExecContext (.insertTaskTag taskID t) w with ⟨err | res, w1⟩
    · simp [errOf]
    · simp [errOf, createTaskTags_eq tx taskID rest w1]

theorem createTaskFn_eq (uuid : String) (req : task.CreateTaskRequest) :
    createTaskFn uuid req = fun tx => execAll tx (createPlan uuid req) := by
  funext tx w
  simp only [createTaskFn, infra.taskRepo.CreateTask, createPlan, execAll, effectiveTags]
  rcases tx.ExecContext _ w with ⟨err | res, w1⟩
  · simp [errOf]
  · by_cases h : noTags req.TagIds = true
    · simp [errOf, h, execAll]
    · simp [errOf, h, createTaskTags_eq]

theorem updateTaskFn_eq (req : task.UpdateTaskRequest) :
    updateTaskFn req = fun tx => execAll tx (updatePlan req) := by
  funext tx w
  simp only [updateTaskFn, infra.taskRepo.UpdateTask, infra.taskTagRepo.DeleteTaskTags,
    updatePlan, execAll, effectiveTags]
  rcases tx.ExecContext _ w with ⟨err | res, w1⟩
  · simp [errOf]
  · simp only [errOf]
    rcases tx.ExecContext _ w1 with ⟨err | res, w2⟩
    · simp
    · by_cases h : noTags req.TagIds = true
      · simp [h, execAll]
      · simp [h, createTaskTags_eq]

theorem replay_cons (now : Time) (s : Stmt) (ss : List Stmt) (t : Tables) :
    replay now (s :: ss) t = replay now ss (s.run now t).1 := rfl

theorem replay_insertTaskTag (now : Time) (taskID : String) : ∀ (tags : List String) (t : Tables),
    replay now (tags.map (.insertTaskTag taskID)) t
      = { t with task_tag := t.task_tag ++ tags.map fun tag => { TaskID := taskID, TagID := tag } }
  | [], t => by simp [replay]
  | tag :: rest, t => by
    rw [List.map_cons, replay_cons, replay_insertTaskTag now taskID rest]
    simp [Stmt.run]

theorem noTags_iff (tagIds : List String) :
    noTags tagIds = true ↔ tagIds = [] ∨ ∃ rest, tagIds = "" :: rest := by
  cases tagIds with
  | nil => simp [noTags]
  | cons t rest =>
    simp only [noTags, List.length_cons, List.getElem?_cons_zero, reduceCtorEq, false_or,
      List.cons.injEq, exists_eq_right']
    constructor
    · intro h
      simpa using h
    · intro h
      simp [h]

namespace postgres

theorem rollbackErrorf_describes (err rbErr : Error) :
    ∃ msg, rollbackErrorf err rbErr = .errorf msg ∧
      err.Error.data <:+: msg.data ∧ rbErr.Error.data <:+: msg.data := by
  refine ⟨_, rfl, ?_, ?_⟩
  · refine ⟨"transaction error: ".data, ", rollback error: ".data ++ rbErr.Error.data, ?_⟩
    simp [String.data_append]
  · refine ⟨"transaction error: ".data ++ err.Error.data ++ ", rollback error: ".data, [], ?_⟩
    simp [String.data_append]

/-- C5. `WithTransaction` refines the reference behaviour, for every driver (that is, every
outcome of begin, rollback and commit), every unit of work and every state: the recorded
invocations and the returned error are one of the four rows of `WithTransactionRef` (begin
alone when it fails, returning its error; otherwise the unit of work once, followed by
exactly one of rollback and commit, once), and the recorder changes neither the result nor
the state the run ends in. -/
theorem WithTransaction_refines {σ τ : Type} (p : PostgresTransaction σ τ)
    (fn : τ → σ → Option Error × σ) (s : σ) :
    WithTransactionRef ((traced p).WithTransaction (tracedWork fn) (s, [])).2.2
        ((traced p).WithTransaction (tracedWork fn) (s, [])).1 = true
      ∧ ((traced p).WithTransaction (tracedWork fn) (s, [])).1 = (p.WithTransaction fn s).1
      ∧ ((traced p).WithTransaction (tracedWork fn) (s, [])).2.1 = (p.WithTransaction fn s).2 := by
  unfold PostgresTransaction.WithTransaction
  simp only [traced, tracedWork]
  rcases hb : p.DB.BeginTx s with ⟨_ | tx, s1⟩
  · simp [WithTransactionRef, errOf]
  · rcases hf : fn tx s1 with ⟨_ | err, s2⟩
    · simp [WithTransactionRef, errOf, hf]
    · rcases hr : p.DB.Rollback tx s2 with ⟨_ | rbErr, s3⟩
      · simp [WithTransactionRef, errOf, hf, hr]
      · obtain ⟨msg, hm, h1, h2⟩ := rollbackErrorf_describes err rbErr
        simp [WithTransactionRef, errOf, hf, hr, hm, h1, h2]

end postgres

theorem CreateTask_no_uuid (req : task.CreateTaskRequest) (w : World)
    (h : ∀ id rest, w.uuids ≠ some id :: rest) :
    (∃ err, (CreateTask req w).1 = .error err) ∧ (CreateTask req w).2.tables = w.tables ∧
      (CreateTask req w).2.log = w.log := by
  unfold CreateTask uuid.NewV7
  rcases hu : w.uuids with _ | ⟨_ | id, rest⟩
  · simp
  · simp
  · exact absurd hu (h id rest)

theorem CreateTask_uuid (req : task.CreateTaskRequest) (w : World) (id : String)
    (rest : List (Option String)) (h : w.uuids = some id :: rest) :
    CreateTask req w =
      match NewPostgresTransaction.WithTransaction (fun tx => execAll tx (createPlan id req))
          { w with uuids := rest } with
      | (some err, w2) => (.error err, w2)
      | (none, w2) => (.ok { Id := id }, w2) := by
  unfold CreateTask uuid.NewV7
  simp only [h, createTaskFn_eq]

/-- C1. Atomicity of `CreateTask`: for a tag list that is non-empty with a non-empty first
element, if the call logged a failed `INSERT` (of the Task row or of an association row),
then it returns an error and no response, and the committed tables are the ones before the
call: neither the new Task row nor any association row is visible. -/
theorem CreateTask_insert_failure_rolls_back (req : task.CreateTaskRequest) (w : World)
    (htags : ∃ t rest, req.TagIds = t :: rest ∧ t ≠ "")
    (hfail : ∃ e ∈ (CreateTask req w).2.log.drop w.log.length,
      e.call.isInsert = true ∧ e.err ≠ none) :
    (∃ err, (CreateTask req w).1 = .error err) ∧ (CreateTask req w).2.tables = w.tables := by
  have _ := htags
  by_cases hu : ∃ id rest, w.uuids = some id :: rest
  · obtain ⟨id, rest, hu⟩ := hu
    rw [CreateTask_uuid req w id rest hu] at hfail ⊢
    obtain ⟨-, h2, h3, -, -, -⟩ := withTx_execAll (createPlan id req) { w with uuids := rest } _ rfl
    rcases hR : NewPostgresTransaction.WithTransaction (fun tx => execAll tx (createPlan id req))
      { w with uuids := rest } with ⟨_ | err, w2⟩
    · exfalso
      rw [hR] at hfail h2
      obtain ⟨e, he, -, hne⟩ := hfail
      obtain ⟨-, hlog⟩ := h2 rfl
      simp only at hlog he
      rw [hlog, List.drop_left] at he
      simp only [List.mem_cons, List.mem_append, List.mem_map, List.mem_singleton,
        List.not_mem_nil, or_false] at he
      rcases he with he | ⟨s, -, he⟩ | he <;> subst he <;> simp [okExec] at hne
    · rw [hR] at h3
      exact ⟨⟨err, rfl⟩, h3 (by simp)⟩
  · have hu2 : ∀ id rest, w.uuids ≠ some id :: rest := fun id rest h => hu ⟨id, rest, h⟩
    obtain ⟨h1, h2, -⟩ := CreateTask_no_uuid req w hu2
    exact ⟨h1, h2⟩

theorem CreateTask_insert_failure_rolls_back_witness :
    (∃ t rest, demoCreate.TagIds = t :: rest ∧ t ≠ "") ∧
      (∃ e ∈ (CreateTask demoCreate
            { demoWorld with faults := [none, none, none, some (.fail "duplicate key")] }).2.log.drop
          demoWorld.log.length,
        e.call.isInsert = true ∧ e.err ≠ none) ∧
      (CreateTask demoCreate
          { demoWorld with faults := [none, none, none, some (.fail "duplicate key")] }).1
        = .error (.other "duplicate key") ∧
      (CreateTask demoCreate
          { demoWorld with faults := [none, none, none, some (.fail "duplicate key")] }).2.tables
        = demoTables :=
  ⟨⟨"t1", ["t2"], rfl, by decide⟩,
    ⟨{ call := .Exec (.tx 0) (.insertTaskTag "u1" "t2"), err := some (.other "duplicate key") },
      by decide, rfl, by decide⟩,
    rfl,
    (CreateTask_insert_failure_rolls_back demoCreate
      { demoWorld with faults := [none, none, none, some (.fail "duplicate key")] }
      ⟨"t1", ["t2"], rfl, by decide⟩
      ⟨{ call := .Exec (.tx 0) (.insertTaskTag "u1" "t2"),
         err := some (.other "duplicate key") }, by decide, rfl, by decide⟩).2⟩

theorem CreateTask_ok (req : task.CreateTaskRequest) (w : World) (resp : task.CreateTaskResponse)
    (hok : (CreateTask req w).1 = .ok resp) :
    (CreateTask req w).2.tables = replay w.clock (createPlan resp.Id req) w.tables ∧
      (CreateTask req w).2.log = w.log ++ { call := .BeginTx, err := none } ::
        ((createPlan resp.Id req).map (okExec w.nextTx) ++
          [{ call := .Commit w.nextTx, err := none }]) ∧
      w.uuids.head? = some (some resp.Id) := by
  by_cases hu : ∃ id rest, w.uuids = some id :: rest
  · obtain ⟨id, rest, hu⟩ := hu
    rw [CreateTask_uuid req w id rest hu] at hok ⊢
    obtain ⟨-, h2, -⟩ := withTx_execAll (createPlan id req) { w with uuids := rest } _ rfl
    rcases hR : NewPostgresTransaction.WithTransaction (fun tx => execAll tx (createPlan id req))
      { w with uuids := rest } with ⟨_ | err, w2⟩
    · rw [hR] at hok h2
      simp only [Except.ok.injEq] at hok
      subst hok
      obtain ⟨ht, hl⟩ := h2 rfl
      exact ⟨ht, hl, by simp [hu]⟩
    · rw [hR] at hok
      simp at hok
  · have hu2 : ∀ id rest, w.uuids ≠ some id :: rest := fun id rest h => hu ⟨id, rest, h⟩
    obtain ⟨⟨err, h1⟩, -⟩ := CreateTask_no_uuid req w hu2
    rw [h1] at hok
    simp at hok

theorem CreateTask_events (req : task.CreateTaskRequest) (w : World) :
    ∃ evs, (CreateTask req w).2.log = w.log ++ evs ∧
      ∀ e ∈ evs, e.call = .BeginTx ∨
        (∃ id, ∃ s ∈ createPlan id req, e.call = .Exec (.tx w.nextTx) s) ∨
        e.call = .Commit w.nextTx ∨ e.call = .Rollback w.nextTx := by
  by_cases hu : ∃ id rest, w.uuids = some id :: rest
  · obtain ⟨id, rest, hu⟩ := hu
    rw [CreateTask_uuid req w id rest hu]
    obtain ⟨-, -, -, ⟨evs, h4, h5⟩, -⟩ :=
      withTx_execAll (createPlan id req) { w with uuids := rest } _ rfl
    refine ⟨evs, ?_, ?_⟩
    · rcases hR : NewPostgresTransaction.WithTransaction
        (fun tx => execAll tx (createPlan id req)) { w with uuids := rest } with ⟨_ | err, w2⟩ <;>
      · rw [hR] at h4; exact h4
    · intro e he
      rcases h5 e he with h | ⟨s, hs, h⟩ | h | h
      · exact Or.inl h
      · exact Or.inr (Or.inl ⟨id, s, hs, h⟩)
      · exact Or.inr (Or.inr (Or.inl h))
      · exact Or.inr (Or.inr (Or.inr h))
  · have hu2 : ∀ id rest, w.uuids ≠ some id :: rest := fun id rest h => hu ⟨id, rest, h⟩
    obtain ⟨-, -, h3⟩ := CreateTask_no_uuid req w hu2
    exact ⟨[], by simpa using h3, by simp⟩

theorem CreateTask_error (req : task.CreateTaskRequest) (w : World) (err : Error)
    (herr : (CreateTask req w).1 = .error err) : (CreateTask req w).2.tables = w.tables := by
  by_cases hu : ∃ id rest, w.uuids = some id :: rest
  · obtain ⟨id, rest, hu⟩ := hu
    rw [CreateTask_uuid req w id rest hu] at herr ⊢
    obtain ⟨-, -, h3, -⟩ := withTx_execAll (createPlan id req) { w with uuids := rest } _ rfl
    rcases hR : NewPostgresTransaction.WithTransaction (fun tx => execAll tx (createPlan id req))
      { w with uuids := rest } with ⟨_ | err, w2⟩
    · rw [hR] at herr; simp at herr
    · rw [hR] at h3; exact h3 (by simp)
  · have hu2 : ∀ id rest, w.uuids ≠ some id :: rest := fun id rest h => hu ⟨id, rest, h⟩
    exact (CreateTask_no_uuid req w hu2).2.1

theorem CreateTask_healthy (req : task.CreateTaskRequest) (w : World) (id : String)
    (rest : List (Option String)) (hf : w.faults = []) (hu : w.uuids = some id :: rest) :
    (CreateTask req w).1 = .ok { Id := id } ∧ (CreateTask req w).2.faults = [] := by
  rw [CreateTask_uuid req w id rest hu]
  obtain ⟨-, -, -, -, -, h6⟩ := withTx_execAll (createPlan id req) { w with uuids := rest } _ rfl
  obtain ⟨h7, h8⟩ := h6 hf
  rcases hR : NewPostgresTransaction.WithTransaction (fun tx => execAll tx (createPlan id req))
    { w with uuids := rest } with ⟨_ | err, w2⟩
  · rw [hR] at h8; exact ⟨rfl, h8⟩
  · rw [hR] at h7; simp at h7

theorem UpdateTask_eq (req : task.UpdateTaskRequest) (w : World) :
    UpdateTask req w =
      match NewPostgresTransaction.WithTransaction (fun tx => execAll tx (updatePlan req)) w with
      | (some err, w1) => (.error err, w1)
      | (none, w1) => (.ok { Success := true }, w1) := by
  unfold UpdateTask
  rw [updateTaskFn_eq]

theorem UpdateTask_spec (req : task.UpdateTaskRequest) (w : World) :
    (∀ resp, (UpdateTask req w).1 = .ok resp →
      resp.Success = true ∧
      (UpdateTask req w).2.tables = replay w.clock (updatePlan req) w.tables ∧
      (UpdateTask req w).2.log = w.log ++ { call := .BeginTx, err := none } ::
        ((updatePlan req).map (okExec w.nextTx) ++
          [{ call := .Commit w.nextTx, err := none }])) ∧
    (∀ err, (UpdateTask req w).1 = .error err →
      (UpdateTask req w).2.tables = w.tables ∧ err ≠ .ErrNoRows) ∧
    (∃ evs, (UpdateTask req w).2.log = w.log ++ evs ∧
      ∀ e ∈ evs, e.call = .BeginTx ∨ (∃ s ∈ updatePlan req, e.call = .Exec (.tx w.nextTx) s) ∨
        e.call = .Commit w.nextTx ∨ e.call = .Rollback w.nextTx) ∧
    (w.faults = [] →
      (UpdateTask req w).1 = .ok { Success := true } ∧ (UpdateTask req w).2.faults = []) := by
  rw [UpdateTask_eq]
  obtain ⟨-, h2, h3, h4, h5, h6⟩ := withTx_execAll (updatePlan req) w _ rfl
  rcases hR : NewPostgresTransaction.WithTransaction (fun tx => execAll tx (updatePlan req)) w
    with ⟨_ | err, w2⟩
  · rw [hR] at h2 h4 h6
    obtain ⟨ht, hl⟩ := h2 rfl
    refine ⟨?_, by simp, h4, fun hf => ⟨rfl, (h6 hf).2⟩⟩
    intro resp hresp
    simp only [Except.ok.injEq] at hresp
    subst hresp
    exact ⟨rfl, ht, hl⟩
  · rw [hR] at h3 h4 h5 h6
    refine ⟨by simp, ?_, h4, fun hf => ?_⟩
    · intro e he
      simp only [Except.error.injEq] at he
      subst he
      exact ⟨h3 (by simp), fun h => h5 (by rw [h])⟩
    · have := (h6 hf).1
      simp at this

theorem effectiveTags_sentinel {tagIds : List String}
    (h : tagIds = [] ∨ ∃ rest, tagIds = "" :: rest) : effectiveTags tagIds = [] := by
  simp [effectiveTags, (noTags_iff tagIds).2 h]

theorem effectiveTags_tags {tagIds : List String}
    (h : ∃ t rest, tagIds = t :: rest ∧ t ≠ "") : effectiveTags tagIds = tagIds := by
  obtain ⟨t, rest, rfl, ht⟩ := h
  have : noTags (t :: rest) = false := by
    rw [Bool.eq_false_iff]
    intro hn
    rcases (noTags_iff _).1 hn with h | ⟨r, h⟩
    · simp at h
    · simp only [List.cons.injEq] at h
      exact ht h.1
  simp [effectiveTags, this]

/-- C2. The sentinel rule: when the tag list is empty or starts with the empty string
(whatever follows), `CreateTask` and `UpdateTask` issue no `INSERT` into the association
table, on any path.  The association table is left as it is by `CreateTask`, and a
successful `UpdateTask` leaves no association row for the task.  The other statements are
still issued: a successful `CreateTask` is exactly begin, the Task-row insert, commit; a
successful `UpdateTask` is exactly begin, the Task-row update, the association delete,
commit; and with no driver fault both calls succeed. -/
theorem sentinel_writes_no_association (creq : task.CreateTaskRequest)
    (ureq : task.UpdateTaskRequest) (w : World)
    (hc : creq.TagIds = [] ∨ ∃ rest, creq.TagIds = "" :: rest)
    (hu : ureq.TagIds = [] ∨ ∃ rest, ureq.TagIds = "" :: rest) :
    ((∀ e ∈ (CreateTask creq w).2.log.drop w.log.length,
        ∀ h taskID tagID, e.call ≠ .Exec h (.insertTaskTag taskID tagID)) ∧
      (CreateTask creq w).2.tables.task_tag = w.tables.task_tag ∧
      (∀ resp, (CreateTask creq w).1 = .ok resp →
        (CreateTask creq w).2.log = w.log ++
          [{ call := .BeginTx, err := none },
           { call := .Exec (.tx w.nextTx)
               (.insertTask resp.Id creq.Title creq.Description
                 (timestamppb.AsTime creq.LimitedAt) false),
             err := none },
           { call := .Commit w.nextTx, err := none }] ∧
        (CreateTask creq w).2.tables.task = w.tables.task ++
          [{ ID := resp.Id, Title := creq.Title, Description := creq.Description,
             IsEnd := false, CreatedAt := w.clock, UpdateAt := w.clock,
             LimitedAt := timestamppb.AsTime creq.LimitedAt }]) ∧
      (∀ id rest, w.faults = [] → w.uuids = some id :: rest →
        (CreateTask creq w).1 = .ok { Id := id })) ∧
    ((∀ e ∈ (UpdateTask ureq w).2.log.drop w.log.length,
        ∀ h taskID tagID, e.call ≠ .Exec h (.insertTaskTag taskID tagID)) ∧
      (∀ resp, (UpdateTask ureq w).1 = .ok resp →
        (UpdateTask ureq w).2.log = w.log ++
          [{ call := .BeginTx, err := none },
           { call := .Exec (.tx w.nextTx)
               (.updateTask ureq.Title ureq.Description (timestamppb.AsTime ureq.LimitedAt)
                 ureq.IsEnd ureq.Id),
             err := none },
           { call := .Exec (.tx w.nextTx) (.deleteTaskTag ureq.Id), err := none },
           { call := .Commit w.nextTx, err := none }] ∧
        (UpdateTask ureq w).2.tables.task_tag
          = w.tables.task_tag.filter (fun r => r.TaskID != ureq.Id) ∧
        (UpdateTask ureq w).2.tables.task_tag.filter (fun r => r.TaskID == ureq.Id) = []) ∧
      (w.faults = [] → (UpdateTask ureq w).1 = .ok { Success := true })) := by
  have hcp : ∀ id, createPlan id creq =
      [.insertTask id creq.Title creq.Description (timestamppb.AsTime creq.LimitedAt) false] := by
    intro id; simp [createPlan, effectiveTags_sentinel hc]
  have hup : updatePlan ureq =
      [.updateTask ureq.Title ureq.Description (timestamppb.AsTime ureq.LimitedAt) ureq.IsEnd
        ureq.Id, .deleteTaskTag ureq.Id] := by
    simp [updatePlan, effectiveTags_sentinel hu]
  refine ⟨⟨?_, ?_, ?_, ?_⟩, ⟨?_, ?_, ?_⟩⟩
  · obtain ⟨evs, hl, hev⟩ := CreateTask_events creq w
    rw [hl, List.drop_left]
    intro e he h taskID tagID hcall
    rcases hev e he with h1 | ⟨id, s, hs, h1⟩ | h1 | h1
    · rw [hcall] at h1; simp at h1
    · rw [hcp id] at hs
      simp only [List.mem_singleton] at hs
      subst hs
      rw [hcall] at h1; simp at h1
    · rw [hcall] at h1; simp at h1
    · rw [hcall] at h1; simp at h1
  · rcases hres : (CreateTask creq w).1 with err | resp
    · rw [CreateTask_error creq w err hres]
    · rw [(CreateTask_ok creq w resp hres).1, hcp]
      simp [replay, Stmt.run]
  · intro resp hres
    obtain ⟨ht, hl, -⟩ := CreateTask_ok creq w resp hres
    rw [ht, hl, hcp]
    simp [replay, Stmt.run, okExec]
  · intro id rest hf hu
    exact (CreateTask_healthy creq w id rest hf hu).1
  · obtain ⟨-, -, ⟨evs, hl, hev⟩, -⟩ := UpdateTask_spec ureq w
    rw [hl, List.drop_left]
    intro e he h taskID tagID hcall
    rcases hev e he with h1 | ⟨s, hs, h1⟩ | h1 | h1
    · rw [hcall] at h1; simp at h1
    · rw [hup] at hs
      simp only [List.mem_cons, List.mem_singleton, List.not_mem_nil, or_false] at hs
      rcases hs with hs | hs <;> subst hs <;> rw [hcall] at h1 <;> simp at h1
    · rw [hcall] at h1; simp at h1
    · rw [hcall] at h1; simp at h1
  · intro resp hres
    obtain ⟨h1, -, -, -⟩ := UpdateTask_spec ureq w
    obtain ⟨-, ht, hl⟩ := h1 resp hres
    rw [ht, hl, hup]
    refine ⟨by simp [okExec], by simp [replay, Stmt.run], ?_⟩
    simp only [replay, List.foldl_cons, List.foldl_nil, Stmt.run, List.filter_filter]
    rw [List.filter_eq_nil_iff]
    intro r _
    simp
  · intro hf
    exact ((UpdateTask_spec ureq w).2.2.2 hf).1

/-- C3. A successful `CreateTask` with a tag list that is non-empty with a non-empty first
element: the committed tables gain one Task row (completion false, the request's title,
description and deadline) and one association row per element of the tag list, duplicates
and later empty strings included, in input order; the statements were issued in that order
inside one transaction; every row carries the identifier returned in the response, which is
the generated one.  With no driver fault and an identifier available the call does succeed. -/
theorem CreateTask_writes_task_and_associations (req : task.CreateTaskRequest) (w : World)
    (htags : ∃ t rest, req.TagIds = t :: rest ∧ t ≠ "") :
    (∀ resp, (CreateTask req w).1 = .ok resp →
      (CreateTask req w).2.tables =
        { w.tables with
          task := w.tables.task ++
            [{ ID := resp.Id, Title := req.Title, Description := req.Description,
               IsEnd := false, CreatedAt := w.clock, UpdateAt := w.clock,
               LimitedAt := timestamppb.AsTime req.LimitedAt }]
          task_tag := w.tables.task_tag ++
            req.TagIds.map fun tagID => { TaskID := resp.Id, TagID := tagID } } ∧
      (CreateTask req w).2.log = w.log ++
        { call := .BeginTx, err := none } ::
        { call := .Exec (.tx w.nextTx)
            (.insertTask resp.Id req.Title req.Description
              (timestamppb.AsTime req.LimitedAt) false),
          err := none } ::
        (req.TagIds.map (fun tagID =>
            { call := .Exec (.tx w.nextTx) (.insertTaskTag resp.Id tagID), err := none }) ++
          [{ call := .Commit w.nextTx, err := none }]) ∧
      w.uuids.head? = some (some resp.Id)) ∧
    (∀ id rest, w.faults = [] → w.uuids = some id :: rest →
      (CreateTask req w).1 = .ok { Id := id }) := by
  refine ⟨?_, fun id rest hf hu => (CreateTask_healthy req w id rest hf hu).1⟩
  intro resp hres
  obtain ⟨ht, hl, hu⟩ := CreateTask_ok req w resp hres
  refine ⟨?_, ?_, hu⟩
  · rw [ht, createPlan, effectiveTags_tags htags, replay_cons, replay_insertTaskTag]
    simp [Stmt.run]
  · rw [hl, createPlan, effectiveTags_tags htags]
    simp [okExec, Function.comp_def]

/-- What a statement on `*sql.DB` does to the state. -/
theorem dbExec_spec (s : Stmt) (w : World) :
    (DB.ExecContext s w).2.clock = w.clock ∧ (DB.ExecContext s w).2.txs = w.txs ∧
      (DB.ExecContext s w).2.log
        = w.log ++ [{ call := .Exec .db s, err := errOf (DB.ExecContext s w).1 }] ∧
      (∀ err, (DB.ExecContext s w).1 = .error err →
        (DB.ExecContext s w).2.tables = w.tables ∧ err ≠ .ErrNoRows) ∧
      (∀ res, (DB.ExecContext s w).1 = .ok res →
        (DB.ExecContext s w).2.tables = (s.run w.clock w.tables).1 ∧
        res.rows = (s.run w.clock w.tables).2) ∧
      (w.faults = [] → errOf (DB.ExecContext s w).1 = none ∧ (DB.ExecContext s w).2.faults = []) := by
  unfold DB.ExecContext
  rcases hf : w.faults with _ | ⟨_ | (m | ⟨k, m⟩), fs⟩ <;> simp [World.fault, hf, World.emit, errOf]

/-- With no fault scheduled, `tx.Rollback` on an open transaction returns no error. -/
theorem rollback_healthy (tx : Tx) (w : World) (p : List Stmt)
    (hopen : w.txs.lookup tx.id = some p) (hf : w.faults = []) :
    (tx.Rollback w).1 = none ∧ (tx.Rollback w).2.faults = [] := by
  unfold Tx.Rollback
  simp [hopen, World.fault, hf, World.emit]

theorem filter_id_eq_nil {id : String} {rows : List Task} (h : ∀ t ∈ rows, t.ID ≠ id) :
    rows.filter (fun r => r.ID == id) = [] := by
  rw [List.filter_eq_nil_iff]
  intro r hr
  simpa using h r hr

/-- The unit of work of `DeleteTask` on an identifier that matches no committed Task row
fails; with no fault scheduled and the transaction open it fails with `sql.ErrNoRows`. -/
theorem deleteTaskFn_unknown (req : task.DeleteTaskRequest) (tx : Tx) (w : World)
    (h : ∀ t ∈ w.tables.task, t.ID ≠ req.Id) :
    (∃ err, (deleteTaskFn req tx w).1 = some err) ∧
      (∀ p, w.txs.lookup tx.id = some p → w.faults = [] →
        (deleteTaskFn req tx w).1 = some .ErrNoRows ∧ (deleteTaskFn req tx w).2.faults = [] ∧
        (deleteTaskFn req tx w).2.txs.lookup tx.id = some (p ++ [.deleteTaskTag req.Id])) := by
  obtain ⟨t1, -, -, t4, -⟩ := txExec_spec tx (.deleteTaskTag req.Id) w
  have th := txExec_healthy tx (.deleteTaskTag req.Id) w
  simp only [deleteTaskFn, infra.taskTagRepo.DeleteTaskTags, infra.taskRepo.DeleteTask]
  rcases hE : tx.ExecContext (.deleteTaskTag req.Id) w with ⟨err | res, w1⟩
  · refine ⟨⟨err, by simp [errOf]⟩, ?_⟩
    intro p hp hf
    have := (th p hp hf).1
    rw [hE] at this
    simp [errOf] at this
  · rw [hE] at t1 t4 th
    simp only at t1
    simp only [errOf, true_implies] at t4
    obtain ⟨-, d2, -, d4, d5, d6⟩ := dbExec_spec (.deleteTask req.Id) w1
    have hcount : ((Stmt.deleteTask req.Id).run w1.clock w1.tables).2 = 0 := by
      simp [Stmt.run, t1, filter_id_eq_nil h]
    simp only [errOf]
    rcases hD : DB.ExecContext (.deleteTask req.Id) w1 with ⟨err | row, w2⟩
    · refine ⟨⟨err, rfl⟩, ?_⟩
      intro p hp hf
      have := (d6 (th p hp hf).2).1
      rw [hD] at this
      simp [errOf] at this
    · rw [hD] at d2 d5 d6
      have hrows : row.rows = 0 := by rw [(d5 row rfl).2, hcount]
      simp only [Result.RowsAffected, hrows, if_true]
      refine ⟨⟨_, rfl⟩, ?_⟩
      intro p hp hf
      refine ⟨trivial, (d6 (th p hp hf).2).2, ?_⟩
      simp only at d2
      rw [d2, t4, lookup_stage, hp]
      rfl

theorem DeleteTask_unknown (req : task.DeleteTaskRequest) (w : World)
    (h : ∀ t ∈ w.tables.task, t.ID ≠ req.Id) :
    (∃ err, (DeleteTask req w).1 = .error err) ∧
      (w.faults = [] → (DeleteTask req w).1 = .error .ErrNoRows) := by
  have hb : ∀ t ∈ (begun w).tables.task, t.ID ≠ req.Id := h
  obtain ⟨⟨e0, f1⟩, f2⟩ := deleteTaskFn_unknown req { id := w.nextTx } (begun w) hb
  unfold DeleteTask
  rcases withTx_cases (deleteTaskFn req) w with
    ⟨m, w1, hbeg, hR⟩ | ⟨w2, hF, hR⟩ | ⟨err, w2, hF, hR2, hR1⟩
  · rw [hR]
    refine ⟨⟨_, rfl⟩, ?_⟩
    intro hf
    rcases beginTx_cases w with ⟨_, _, _, _, _, _, hne⟩ | hb2
    · exact absurd hf hne
    · rw [hbeg] at hb2; simp at hb2
  · rw [hF] at f1; simp at f1
  · have hne : ∃ e, (NewPostgresTransaction.WithTransaction (deleteTaskFn req) w).1 = some e := by
      rcases hR1 with ⟨-, h1⟩ | ⟨rb, -, h1⟩ <;> exact ⟨_, h1⟩
    obtain ⟨e, he⟩ := hne
    rcases hW : NewPostgresTransaction.WithTransaction (deleteTaskFn req) w with ⟨_ | e2, w3⟩
    · rw [hW] at he; simp at he
    · refine ⟨⟨e2, rfl⟩, ?_⟩
      intro hf
      obtain ⟨g1, g2, g3⟩ := f2 [] (by simp [begun, List.lookup]) (by simp [begun, hf])
      rw [hF] at g1 g2 g3
      simp only [Option.some.injEq] at g1
      subst g1
      have hrb := (rollback_healthy { id := w.nextTx } w2 _ g3 g2).1
      rw [hW] at hR1
      rcases hR1 with ⟨-, h1⟩ | ⟨rb, h2, -⟩
      · simp only [Option.some.injEq] at h1
        rw [h1]
      · rw [hrb] at h2; simp at h2


/-- What a query on `*sql.DB` does to the state and what it returns. -/
theorem dbQuery_spec {α : Type} (q : Query) (rows : Tables → Except Error (List α))
    (w : World) :
    (DB.QueryContext q rows w).2.tables = w.tables ∧
      (∀ rs, (DB.QueryContext q rows w).1 = .ok rs →
        ∃ all, rows w.tables = .ok all ∧ rs.scanned <+: all ∧
          (rs.Err = none → rs.scanned = all)) ∧
      (∀ err, rows w.tables = .error err →
        ∃ err2, (DB.QueryContext q rows w).1 = .error err2) ∧
      (w.faults = [] →
        (∀ all, rows w.tables = .ok all →
          (DB.QueryContext q rows w).1 = .ok { scanned := all, Err := none }) ∧
        (DB.QueryContext q rows w).2.faults = []) := by
  unfold DB.QueryContext
  rcases hf : w.faults with _ | ⟨_ | (m | ⟨k, m⟩), fs⟩ <;>
    rcases hr : rows w.tables with err | all <;>
    simp [World.queryFault, hf, World.emit, hr, List.take_prefix]

theorem find_eq_head_filter {α : Type} (p : α → Bool) : ∀ l : List α,
    l.find? p = (l.filter p).head?
  | [] => rfl
  | a :: l => by
    by_cases hp : p a = true
    · rw [List.find?_cons_of_pos _ hp, List.filter_cons_of_pos hp]
      rfl
    · rw [List.find?_cons_of_neg _ hp, List.filter_cons_of_neg hp]
      exact find_eq_head_filter p l

/-- A single-row query by key: what it returns and what it does to the state. -/
theorem queryRow_spec {α : Type} (q : Query) (f : Tables → List α) (p : α → Bool) (w : World) :
    (DB.QueryContext q (fun t => .ok ((f t).filter p)) w).2.tables = w.tables ∧
      (∀ row, infra.scanRow (DB.QueryContext q (fun t => .ok ((f t).filter p)) w).1 = .ok row →
        (f w.tables).find? p = some row) ∧
      ((f w.tables).find? p = none →
        ∃ err, infra.scanRow (DB.QueryContext q (fun t => .ok ((f t).filter p)) w).1
          = .error err) ∧
      (w.faults = [] →
        (∀ row, (f w.tables).find? p = some row →
          infra.scanRow (DB.QueryContext q (fun t => .ok ((f t).filter p)) w).1 = .ok row) ∧
        ((f w.tables).find? p = none →
          infra.scanRow (DB.QueryContext q (fun t => .ok ((f t).filter p)) w).1
            = .error .ErrNoRows) ∧
        (DB.QueryContext q (fun t => .ok ((f t).filter p)) w).2.faults = []) := by
  obtain ⟨q1, q2, -, q4⟩ := dbQuery_spec q (fun t => .ok ((f t).filter p)) w
  refine ⟨q1, ?_, ?_, ?_⟩
  · intro row hrow
    rcases hQ : (DB.QueryContext q (fun t => .ok ((f t).filter p)) w).1 with err | rs
    · simp [hQ, infra.scanRow] at hrow
    · obtain ⟨all, hall, hpre, -⟩ := q2 rs hQ
      simp only [Except.ok.injEq] at hall
      subst hall
      rw [hQ] at hrow
      rcases hs : rs.scanned with _ | ⟨r, t⟩
      · simp only [infra.scanRow, hs] at hrow
        rcases he : rs.Err with _ | e <;> simp [he] at hrow
      · simp only [infra.scanRow, hs, Except.ok.injEq] at hrow
        subst hrow
        rw [hs] at hpre
        obtain ⟨u, hu⟩ := hpre
        rw [find_eq_head_filter, ← hu]
        rfl
  · intro hnone
    rcases hQ : (DB.QueryContext q (fun t => .ok ((f t).filter p)) w).1 with err | rs
    · exact ⟨err, by simp [infra.scanRow]⟩
    · obtain ⟨all, hall, hpre, -⟩ := q2 rs hQ
      simp only [Except.ok.injEq] at hall
      subst hall
      have hnil : (f w.tables).filter p = [] := by
        rw [List.filter_eq_nil_iff]
        intro a ha
        exact (List.find?_eq_none.1 hnone) a ha
      rw [hnil] at hpre
      have hs : rs.scanned = [] := List.prefix_nil.1 hpre
      rcases he : rs.Err with _ | e
      · exact ⟨.ErrNoRows, by simp [infra.scanRow, hs, he]⟩
      · exact ⟨e, by simp [infra.scanRow, hs, he]⟩
  · intro hf
    obtain ⟨h1, h2⟩ := q4 hf
    have h3 := h1 _ rfl
    refine ⟨?_, ?_, h2⟩
    · intro row hrow
      rw [h3]
      rw [find_eq_head_filter] at hrow
      rcases hl : (f w.tables).filter p with _ | ⟨r, t⟩
      · rw [hl] at hrow; simp at hrow
      · rw [hl] at hrow
        simp only [List.head?_cons, Option.some.injEq] at hrow
        subst hrow
        simp [infra.scanRow]
    · intro hnone
      rw [h3]
      have hnil : (f w.tables).filter p = [] := by
        rw [List.filter_eq_nil_iff]
        intro a ha
        exact (List.find?_eq_none.1 hnone) a ha
      simp [infra.scanRow, hnil]

/-- The Task-row fetch of `GetTask`. -/
theorem taskRepo_GetTask_spec (id : String) (w : World) :
    (infra.taskRepo.GetTask { ID := id } w).2.tables = w.tables ∧
      (∀ row, (infra.taskRepo.GetTask { ID := id } w).1 = .ok row →
        w.tables.task.find? (fun r => r.ID == id) = some row) ∧
      (w.tables.task.find? (fun r => r.ID == id) = none →
        ∃ err, (infra.taskRepo.GetTask { ID := id } w).1 = .error err) ∧
      (w.faults = [] →
        (∀ row, w.tables.task.find? (fun r => r.ID == id) = some row →
          (infra.taskRepo.GetTask { ID := id } w).1 = .ok row) ∧
        (w.tables.task.find? (fun r => r.ID == id) = none →
          (infra.taskRepo.GetTask { ID := id } w).1 = .error .ErrNoRows) ∧
        (infra.taskRepo.GetTask { ID := id } w).2.faults = []) :=
  queryRow_spec (.taskByID id) (fun t => t.task) (fun r => r.ID == id) w

/-- The Tag-row fetch of the fan-out. -/
theorem tagRepo_GetTag_spec (id : String) (w : World) :
    (infra.tagRepo.GetTag { ID := id } w).2.tables = w.tables ∧
      (∀ row, (infra.tagRepo.GetTag { ID := id } w).1 = .ok row →
        w.tables.tag.find? (fun r => r.ID == id) = some row) ∧
      (w.tables.tag.find? (fun r => r.ID == id) = none →
        ∃ err, (infra.tagRepo.GetTag { ID := id } w).1 = .error err) ∧
      (w.faults = [] →
        (∀ row, w.tables.tag.find? (fun r => r.ID == id) = some row →
          (infra.tagRepo.GetTag { ID := id } w).1 = .ok row) ∧
        (w.tables.tag.find? (fun r => r.ID == id) = none →
          (infra.tagRepo.GetTag { ID := id } w).1 = .error .ErrNoRows) ∧
        (infra.tagRepo.GetTag { ID := id } w).2.faults = []) :=
  queryRow_spec (.tagByID id) (fun t => t.tag) (fun r => r.ID == id) w

theorem find_task_none {id : String} {rows : List Task} (h : ∀ t ∈ rows, t.ID ≠ id) :
    rows.find? (fun r => r.ID == id) = none := by
  rw [List.find?_eq_none]
  intro r hr
  simpa using h r hr

theorem GetTask_unknown (id : String) (w : World) (h : ∀ t ∈ w.tables.task, t.ID ≠ id) :
    (∃ err, (GetTask { Id := id } w).1 = .error err) ∧
      (w.faults = [] → (GetTask { Id := id } w).1 = .error .ErrNoRows) := by
  obtain ⟨-, -, g3, g4⟩ := taskRepo_GetTask_spec id w
  simp only [GetTask]
  rcases hG : infra.taskRepo.GetTask { ID := id } w with ⟨err | row, w1⟩
  · refine ⟨⟨err, rfl⟩, ?_⟩
    intro hf
    have := (g4 hf).2.1 (find_task_none h)
    rw [hG] at this
    simp only [Except.error.injEq] at this
    simp [this]
  · obtain ⟨e, he⟩ := g3 (find_task_none h)
    rw [hG] at he
    simp at he

/-- C6. An identifier that matches no Task row: `GetTask` returns an error and no task, and
`DeleteTask` returns an error and no success response, on every path; when the driver
reports no fault the error is the NotFound error `sql.ErrNoRows` in both. -/
theorem unknown_task_is_not_found (id : String) (w : World)
    (h : ∀ t ∈ w.tables.task, t.ID ≠ id) :
    ((∃ err, (GetTask { Id := id } w).1 = .error err) ∧
      (w.faults = [] → (GetTask { Id := id } w).1 = .error .ErrNoRows)) ∧
    ((∃ err, (DeleteTask { Id := id } w).1 = .error err) ∧
      (w.faults = [] → (DeleteTask { Id := id } w).1 = .error .ErrNoRows)) :=
  ⟨GetTask_unknown id w h, DeleteTask_unknown { Id := id } w h⟩

/-- C7. An identifier that matches no Task row: the `UPDATE` affects zero rows, and
`UpdateTask` never returns the NotFound error `sql.ErrNoRows`; when the driver reports no
fault it returns success=true, for every tag list. -/
theorem UpdateTask_unknown_is_not_an_error (req : task.UpdateTaskRequest) (w : World)
    (h : ∀ t ∈ w.tables.task, t.ID ≠ req.Id) :
    ((Stmt.updateTask req.Title req.Description (timestamppb.AsTime req.LimitedAt) req.IsEnd
        req.Id).run w.clock w.tables).2 = 0 ∧
      (UpdateTask req w).1 ≠ .error .ErrNoRows ∧
      (w.faults = [] → (UpdateTask req w).1 = .ok { Success := true }) := by
  obtain ⟨-, h2, -, h4⟩ := UpdateTask_spec req w
  refine ⟨by simp [Stmt.run, filter_id_eq_nil h], ?_, fun hf => (h4 hf).1⟩
  intro he
  exact (h2 _ he).2 rfl

/-- The tag fan-out: what it returns and what it does to the state. -/
theorem resolveTags_spec : ∀ (assocs : List TaskTag) (acc : List task.Tag) (w : World),
    (resolveTags assocs acc w).2.tables = w.tables ∧
      (∀ tags, (resolveTags assocs acc w).1 = .ok tags →
        ∃ new, tags = acc ++ new ∧
          assocs.map (fun a => (w.tables.tag.find? (fun g => g.ID == a.TagID)).map tagProto)
            = new.map some) ∧
      (w.faults = [] →
        (∀ a ∈ assocs, ∃ g, w.tables.tag.find? (fun g => g.ID == a.TagID) = some g) →
        (∃ tags, (resolveTags assocs acc w).1 = .ok tags) ∧
        (resolveTags assocs acc w).2.faults = [])
  | [], acc, w => by
    simp only [resolveTags]
    refine ⟨trivial, ?_, fun hf _ => ⟨⟨acc, rfl⟩, hf⟩⟩
    intro tags h
    simp only [Except.ok.injEq] at h
    exact ⟨[], by simp [h], rfl⟩
  | a :: rest, acc, w => by
    obtain ⟨g1, g2, -, g4⟩ := tagRepo_GetTag_spec a.TagID w
    simp only [resolveTags]
    rcases hG : infra.tagRepo.GetTag { ID := a.TagID } w with ⟨err | tag, w1⟩
    · rw [hG] at g1 g4
      refine ⟨g1, by simp, ?_⟩
      intro hf hall
      obtain ⟨g, hg⟩ := hall a (List.mem_cons_self _ _)
      have := (g4 hf).1 g hg
      simp at this
    · rw [hG] at g1 g2 g4
      simp only at g1
      obtain ⟨r1, r2, r3⟩ := resolveTags_spec rest (acc ++ [{ Id := tag.ID, Name := tag.Name }]) w1
      have hfind := g2 tag rfl
      refine ⟨r1.trans g1, ?_, ?_⟩
      · intro tags h
        obtain ⟨new, hn1, hn2⟩ := r2 tags h
        refine ⟨{ Id := tag.ID, Name := tag.Name } :: new, by simp [hn1], ?_⟩
        rw [g1] at hn2
        simp [hfind, hn2, tagProto]
      · intro hf hall
        have hf1 : w1.faults = [] := (g4 hf).2.2
        have hall1 : ∀ a ∈ rest, ∃ g, w1.tables.tag.find? (fun g => g.ID == a.TagID) = some g := by
          intro b hb
          rw [g1]
          exact hall b (List.mem_cons_of_mem _ hb)
        exact r3 hf1 hall1

/-- The association fetch: it returns the rows it scanned, which are the first rows of the
table's rows for the task, and all of them when the driver reports no fault. -/
theorem GetTaskTagIDs_spec (id : String) (w : World) :
    (infra.taskTagRepo.GetTaskTagIDs { TaskID := id } w).2.tables = w.tables ∧
      (∀ xs, (infra.taskTagRepo.GetTaskTagIDs { TaskID := id } w).1 = .ok xs →
        xs <+: w.tables.task_tag.filter (fun r => r.TaskID == id)) ∧
      (w.faults = [] →
        (infra.taskTagRepo.GetTaskTagIDs { TaskID := id } w).1
          = .ok (w.tables.task_tag.filter (fun r => r.TaskID == id)) ∧
        (infra.taskTagRepo.GetTaskTagIDs { TaskID := id } w).2.faults = []) := by
  obtain ⟨q1, q2, -, q4⟩ :=
    dbQuery_spec (.taskTagByTaskID id) (selectTaskTagByTaskID id) w
  simp only [infra.taskTagRepo.GetTaskTagIDs]
  rcases hQ : DB.QueryContext (.taskTagByTaskID id) (selectTaskTagByTaskID id) w
    with ⟨err | rs, w1⟩
  · rw [hQ] at q1 q4
    refine ⟨q1, by simp, ?_⟩
    intro hf
    have := (q4 hf).1 _ rfl
    simp at this
  · rw [hQ] at q1 q2 q4
    refine ⟨q1, ?_, ?_⟩
    · intro xs hxs
      simp only [Except.ok.injEq] at hxs
      subst hxs
      obtain ⟨all, hall, hpre, -⟩ := q2 rs rfl
      simp only [selectTaskTagByTaskID, Except.ok.injEq] at hall
      rw [hall]
      exact hpre
    · intro hf
      obtain ⟨h1, h2⟩ := q4 hf
      have := h1 _ rfl
      simp only [Except.ok.injEq] at this
      subst this
      exact ⟨rfl, h2⟩

theorem find_task_id {id : String} {rows : List Task} {row : Task}
    (h : rows.find? (fun r => r.ID == id) = some row) : row.ID = id := by
  have := List.find?_some h
  simpa using this

/-- A successful `GetTask`: the response is assembled from the first Task row with the
identifier, the association rows that the association fetch returned, in that order, and the
Tag row of each. -/
theorem GetTask_ok (id : String) (w : World) (resp : task.GetTaskResponse)
    (h : (GetTask { Id := id } w).1 = .ok resp) :
    (GetTask { Id := id } w).2.tables = w.tables ∧
    ∃ row fetched, w.tables.task.find? (fun r => r.ID == id) = some row ∧
      resp.Task = toProto row resp.Task.Tags ∧
      (infra.taskTagRepo.GetTaskTagIDs { TaskID := id }
        (infra.taskRepo.GetTask { ID := id } w).2).1 = .ok fetched ∧
      fetched <+: w.tables.task_tag.filter (fun r => r.TaskID == id) ∧
      (w.faults = [] → fetched = w.tables.task_tag.filter (fun r => r.TaskID == id)) ∧
      fetched.map (fun a => (w.tables.tag.find? (fun g => g.ID == a.TagID)).map tagProto)
        = resp.Task.Tags.map some := by
  obtain ⟨t1, t2, -, t4⟩ := taskRepo_GetTask_spec id w
  simp only [GetTask] at h ⊢
  rcases hG : infra.taskRepo.GetTask { ID := id } w with ⟨err | row, w1⟩
  · rw [hG] at h; simp at h
  · rw [hG] at h t1 t2 t4
    simp only at h t1 t4 ⊢
    have hrow := t2 row rfl
    have hid := find_task_id hrow
    rw [hid] at h ⊢
    obtain ⟨a1, a2, a3⟩ := GetTaskTagIDs_spec id w1
    rcases hA : infra.taskTagRepo.GetTaskTagIDs { TaskID := id } w1 with ⟨err | assocs, w2⟩
    · rw [hA] at h; simp at h
    · rw [hA] at h a1 a2 a3
      simp only at h a1 a3 ⊢
      have hpre := a2 assocs rfl
      obtain ⟨r1, r2, -⟩ := resolveTags_spec assocs [] w2
      rcases hR : resolveTags assocs [] w2 with ⟨err | tags, w3⟩
      · rw [hR] at h; simp at h
      · rw [hR] at h r1 r2
        simp only [Except.ok.injEq] at h r1 ⊢
        subst h
        obtain ⟨new, hn1, hn2⟩ := r2 tags rfl
        simp only [List.nil_append] at hn1
        subst hn1
        refine ⟨by rw [r1, a1, t1], row, assocs, hrow, rfl, rfl, ?_, ?_, ?_⟩
        · rw [t1] at hpre; exact hpre
        · intro hf
          have := (a3 (t4 hf).2.2).1
          simp only [Except.ok.injEq] at this
          rw [this, t1]
        · rw [a1, t1] at hn2
          simpa [toProto] using hn2

/-- With no fault scheduled, `GetTask` succeeds when the Task row exists and every
association row of the task refers to a Tag row. -/
theorem GetTask_healthy (id : String) (w : World) (row : Task)
    (hrow : w.tables.task.find? (fun r => r.ID == id) = some row) (hf : w.faults = [])
    (htags : ∀ a ∈ w.tables.task_tag.filter (fun r => r.TaskID == id),
      ∃ g, w.tables.tag.find? (fun g => g.ID == a.TagID) = some g) :
    ∃ resp, (GetTask { Id := id } w).1 = .ok resp := by
  obtain ⟨t1, -, -, t4⟩ := taskRepo_GetTask_spec id w
  obtain ⟨h1, -, h3⟩ := t4 hf
  have hid := find_task_id hrow
  simp only [GetTask]
  rcases hG : infra.taskRepo.GetTask { ID := id } w with ⟨err | row2, w1⟩
  · have := h1 row hrow
    rw [hG] at this; simp at this
  · have hr := h1 row hrow
    rw [hG] at hr h3 t1
    simp only [Except.ok.injEq] at hr h3 t1 ⊢
    subst hr
    obtain ⟨a1, -, a3⟩ := GetTaskTagIDs_spec row2.ID w1
    obtain ⟨b1, b2⟩ := a3 h3
    rcases hA : infra.taskTagRepo.GetTaskTagIDs { TaskID := row2.ID } w1 with ⟨err | assocs, w2⟩
    · rw [hA] at b1; simp at b1
    · rw [hA] at b1 b2 a1
      simp only [Except.ok.injEq] at b1 b2 a1
      obtain ⟨-, -, r3⟩ := resolveTags_spec assocs [] w2
      have hall : ∀ a ∈ assocs, ∃ g, w2.tables.tag.find? (fun g => g.ID == a.TagID) = some g := by
        intro a ha
        rw [a1, t1]
        apply htags a
        rw [b1, t1, hid] at ha
        exact ha
      obtain ⟨⟨tags, htg⟩, -⟩ := r3 b2 hall
      simp only
      rcases hR : resolveTags assocs [] w2 with ⟨err | tags2, w3⟩
      · rw [hR] at htg; simp at htg
      · exact ⟨_, rfl⟩

theorem find_some_of_mem {tbl : List Tag} {t : String} (h : ∃ g ∈ tbl, g.ID = t) :
    ∃ g, tbl.find? (fun g => g.ID == t) = some g := by
  obtain ⟨g, hg, hid⟩ := h
  rcases hfind : tbl.find? (fun g => g.ID == t) with _ | row
  · have := List.find?_eq_none.1 hfind g hg
    simp [hid] at this
  · exact ⟨row, hfind⟩

/-- C10. When the Task row for `id` exists, a `GetTask(id)` that returns a response returns
the fields of that row, with a tag list that has exactly one entry per association row that
the association fetch returned for `id`, in the fetch order, each entry carrying the id and
the name of the Tag row looked up by that association's tag identifier.  The fetched rows
are the first rows of the table's rows for `id`, and all of them when the driver reports no
fault; in that case, if every tag lookup finds its row, `GetTask` does return a response. -/
theorem GetTask_assembles_task_and_tags (id : String) (w : World) (row : Task)
    (hrow : w.tables.task.find? (fun r => r.ID == id) = some row) :
    (∀ resp, (GetTask { Id := id } w).1 = .ok resp →
      resp.Task.Id = row.ID ∧ resp.Task.Title = row.Title ∧
      resp.Task.Description = row.Description ∧ resp.Task.CreatedAt = some row.CreatedAt ∧
      resp.Task.UpdatedAt = some row.UpdateAt ∧ resp.Task.LimitedAt = some row.LimitedAt ∧
      resp.Task.IsEnd = row.IsEnd ∧
      ∃ fetched,
        (infra.taskTagRepo.GetTaskTagIDs { TaskID := id }
          (infra.taskRepo.GetTask { ID := id } w).2).1 = .ok fetched ∧
        fetched <+: w.tables.task_tag.filter (fun r => r.TaskID == id) ∧
        (w.faults = [] → fetched = w.tables.task_tag.filter (fun r => r.TaskID == id)) ∧
        fetched.map
            (fun a => (w.tables.tag.find? (fun g => g.ID == a.TagID)).map
              fun g => ({ Id := g.ID, Name := g.Name } : task.Tag))
          = resp.Task.Tags.map some) ∧
    (w.faults = [] →
      (∀ a ∈ w.tables.task_tag.filter (fun r => r.TaskID == id),
        ∃ g ∈ w.tables.tag, g.ID = a.TagID) →
      ∃ resp, (GetTask { Id := id } w).1 = .ok resp) := by
  refine ⟨?_, fun hf htags =>
    GetTask_healthy id w row hrow hf fun a ha => find_some_of_mem (htags a ha)⟩
  intro resp hresp
  obtain ⟨-, row2, fetched, hrow2, hp, hfetch, hpre, hall, htg⟩ := GetTask_ok id w resp hresp
  rw [hrow] at hrow2
  simp only [Option.some.injEq] at hrow2
  subst hrow2
  refine ⟨?_, ?_, ?_, ?_, ?_, ?_, ?_, fetched, hfetch, hpre, hall, htg⟩ <;> rw [hp] <;> rfl

theorem UpdateTask_ok_tables (req : task.UpdateTaskRequest) (w : World)
    (resp : task.UpdateTaskResponse) (hok : (UpdateTask req w).1 = .ok resp) :
    (UpdateTask req w).2.tables =
      { task := w.tables.task.map fun r =>
          if r.ID = req.Id then
            { r with Title := req.Title, Description := req.Description,
                     LimitedAt := timestamppb.AsTime req.LimitedAt, IsEnd := req.IsEnd }
          else r
        tag := w.tables.tag
        task_tag := w.tables.task_tag.filter (fun r => r.TaskID != req.Id) ++
          (effectiveTags req.TagIds).map fun tagID => { TaskID := req.Id, TagID := tagID } } := by
  obtain ⟨h1, -⟩ := UpdateTask_spec req w
  obtain ⟨-, ht, -⟩ := h1 resp hok
  rw [ht, updatePlan, replay_cons, replay_cons, replay_insertTaskTag]
  simp [Stmt.run]

theorem filter_task_tag_replaced (id : String) (old : List TaskTag) (tags : List String) :
    (old.filter (fun r => r.TaskID != id) ++
        tags.map fun tagID => ({ TaskID := id, TagID := tagID } : TaskTag)).filter
      (fun r => r.TaskID == id)
    = tags.map fun tagID => { TaskID := id, TagID := tagID } := by
  rw [List.filter_append, List.filter_filter]
  have h1 : old.filter (fun r => (r.TaskID == id && r.TaskID != id)) = [] := by
    rw [List.filter_eq_nil_iff]
    intro r _
    simp
  have h2 : (tags.map fun tagID => ({ TaskID := id, TagID := tagID } : TaskTag)).filter
      (fun r => r.TaskID == id) = tags.map fun tagID => { TaskID := id, TagID := tagID } := by
    rw [List.filter_eq_self]
    intro r hr
    obtain ⟨t, -, rfl⟩ := List.mem_map.1 hr
    simp
  rw [h1, h2, List.nil_append]

theorem resolved_ids (tbl : List Tag) : ∀ (assocs : List TaskTag) (tags : List task.Tag),
    assocs.map (fun a => (tbl.find? (fun g => g.ID == a.TagID)).map tagProto) = tags.map some →
      tags.map (fun g => g.Id) = assocs.map (fun a => a.TagID)
  | [], tags, h => by
    cases tags with
    | nil => rfl
    | cons g gs => simp at h
  | a :: assocs, tags, h => by
    cases tags with
    | nil => simp at h
    | cons g gs =>
      simp only [List.map_cons, List.cons.injEq] at h ⊢
      obtain ⟨h1, h2⟩ := h
      refine ⟨?_, resolved_ids tbl assocs gs h2⟩
      rcases hfind : tbl.find? (fun g => g.ID == a.TagID) with _ | row
      · rw [hfind] at h1; simp at h1
      · rw [hfind] at h1
        simp only [Option.map_some', Option.some.injEq] at h1
        have := List.find?_some hfind
        rw [← h1]
        simpa [tagProto] using this

/-- C8. Replacement of the tags: after a successful `UpdateTask` the association rows of
the task are exactly those of the supplied tag list, one per element in input order (none
under the sentinel rule), whatever associations the task had before; the rows of other
tasks are kept.  A following `GetTask` that returns a response returns tag identifiers of
the supplied list only, in its order, and all of them when the driver reports no fault; it
does return a response when the driver reports no fault, the Task row exists and every
supplied tag has a Tag row. -/
theorem UpdateTask_replaces_associations (req : task.UpdateTaskRequest) (w : World)
    (resp : task.UpdateTaskResponse) (hok : (UpdateTask req w).1 = .ok resp) :
    (UpdateTask req w).2.tables.task_tag =
        w.tables.task_tag.filter (fun r => r.TaskID != req.Id) ++
          (if noTags req.TagIds then [] else req.TagIds).map
            (fun tagID => { TaskID := req.Id, TagID := tagID }) ∧
      (UpdateTask req w).2.tables.task_tag.filter (fun r => r.TaskID == req.Id) =
        (if noTags req.TagIds then [] else req.TagIds).map
          (fun tagID => { TaskID := req.Id, TagID := tagID }) ∧
      (∀ gresp, (GetTask { Id := req.Id } (UpdateTask req w).2).1 = .ok gresp →
        gresp.Task.Tags.map (fun g => g.Id) <+: (if noTags req.TagIds then [] else req.TagIds) ∧
        ((UpdateTask req w).2.faults = [] →
          gresp.Task.Tags.map (fun g => g.Id)
            = if noTags req.TagIds then [] else req.TagIds)) ∧
      ((UpdateTask req w).2.faults = [] → (∃ row ∈ w.tables.task, row.ID = req.Id) →
        (∀ tagID ∈ (if noTags req.TagIds then [] else req.TagIds),
          ∃ g ∈ w.tables.tag, g.ID = tagID) →
        ∃ gresp, (GetTask { Id := req.Id } (UpdateTask req w).2).1 = .ok gresp) := by
  have ht := UpdateTask_ok_tables req w resp hok
  have heff : effectiveTags req.TagIds = if noTags req.TagIds then [] else req.TagIds := rfl
  rw [heff] at ht
  have hfilter : (UpdateTask req w).2.tables.task_tag.filter (fun r => r.TaskID == req.Id) =
      (if noTags req.TagIds then [] else req.TagIds).map
        fun tagID => { TaskID := req.Id, TagID := tagID } := by
    rw [ht]
    exact filter_task_tag_replaced req.Id _ _
  refine ⟨by rw [ht], hfilter, ?_, ?_⟩
  · intro gresp hg
    obtain ⟨-, row, fetched, -, -, -, hpre, hall, htg⟩ := GetTask_ok req.Id _ gresp hg
    have hids := resolved_ids _ _ _ htg
    rw [hfilter] at hpre hall
    refine ⟨?_, ?_⟩
    · rw [hids]
      have := hpre.map (fun a : TaskTag => a.TagID)
      simpa [Function.comp_def] using this
    · intro hf
      rw [hids, hall hf]
      simp [Function.comp_def]
  · intro hf hrow htags
    obtain ⟨row, hmem, hid⟩ := hrow
    have hrow2 : ∃ r, (UpdateTask req w).2.tables.task.find? (fun r => r.ID == req.Id)
        = some r := by
      rcases hfind : (UpdateTask req w).2.tables.task.find? (fun r => r.ID == req.Id) with _ | r
      · have h := List.find?_eq_none.1 hfind
        rw [ht] at h
        have := h _ (List.mem_map_of_mem _ hmem)
        simp [hid] at this
      · exact ⟨r, hfind⟩
    obtain ⟨r, hr⟩ := hrow2
    refine GetTask_healthy req.Id _ r hr hf ?_
    intro a ha
    rw [hfilter] at ha
    obtain ⟨t, ht1, rfl⟩ := List.mem_map.1 ha
    have htag : (UpdateTask req w).2.tables.tag = w.tables.tag := by rw [ht]
    rw [htag]
    exact find_some_of_mem (htags t ht1)

/-- C9. After a successful `UpdateTask` on an existing task, the Task table is the old one
with the title, description, deadline and completion flag of the rows carrying the
identifier replaced by the supplied values: identifiers, timestamps and every other row
are unchanged.  A following `GetTask` that returns a response returns the identifier and
the supplied title, description, deadline and completion flag, and it does return one when
the driver reports no fault and every association row of the task has its Tag row. -/
theorem UpdateTask_then_GetTask (req : task.UpdateTaskRequest) (w : World)
    (resp : task.UpdateTaskResponse) (row : Task)
    (hrow : w.tables.task.find? (fun r => r.ID == req.Id) = some row)
    (hok : (UpdateTask req w).1 = .ok resp) :
    (UpdateTask req w).2.tables.task =
        (w.tables.task.map fun r =>
          if r.ID = req.Id then
            { r with Title := req.Title, Description := req.Description,
                     LimitedAt := timestamppb.AsTime req.LimitedAt, IsEnd := req.IsEnd }
          else r) ∧
      (∀ r ∈ w.tables.task, r.ID ≠ req.Id → r ∈ (UpdateTask req w).2.tables.task) ∧
      (∀ gresp, (GetTask { Id := req.Id } (UpdateTask req w).2).1 = .ok gresp →
        gresp.Task.Id = req.Id ∧ gresp.Task.Title = req.Title ∧
        gresp.Task.Description = req.Description ∧
        gresp.Task.LimitedAt = some (timestamppb.AsTime req.LimitedAt) ∧
        gresp.Task.IsEnd = req.IsEnd ∧
        gresp.Task.CreatedAt = some row.CreatedAt ∧ gresp.Task.UpdatedAt = some row.UpdateAt) ∧
      ((UpdateTask req w).2.faults = [] →
        (∀ a ∈ (UpdateTask req w).2.tables.task_tag.filter (fun r => r.TaskID == req.Id),
          ∃ g ∈ w.tables.tag, g.ID = a.TagID) →
        ∃ gresp, (GetTask { Id := req.Id } (UpdateTask req w).2).1 = .ok gresp) := by
  have ht := UpdateTask_ok_tables req w resp hok
  have hid := find_task_id hrow
  have hfind : (UpdateTask req w).2.tables.task.find? (fun r => r.ID == req.Id) =
      some { row with Title := req.Title, Description := req.Description,
                      LimitedAt := timestamppb.AsTime req.LimitedAt, IsEnd := req.IsEnd } := by
    rw [ht]
    simp only [List.find?_map]
    have hcomp : ((fun r : Task => r.ID == req.Id) ∘ fun r : Task =>
        if r.ID = req.Id then
          { r with Title := req.Title, Description := req.Description,
                   LimitedAt := timestamppb.AsTime req.LimitedAt, IsEnd := req.IsEnd }
        else r) = fun r => r.ID == req.Id := by
      funext r
      by_cases h : r.ID = req.Id <;> simp [h]
    rw [hcomp, hrow]
    simp [hid]
  refine ⟨by rw [ht], ?_, ?_, ?_⟩
  · intro r hr hne
    rw [ht]
    refine List.mem_map.2 ⟨r, hr, ?_⟩
    simp [hne]
  · intro gresp hg
    obtain ⟨-, row2, -, hrow2, hp, -⟩ := GetTask_ok req.Id _ gresp hg
    rw [hfind] at hrow2
    simp only [Option.some.injEq] at hrow2
    subst hrow2
    rw [hp]
    simp [toProto, timestamppb.New, hid]
  · intro hf htags
    refine GetTask_healthy req.Id _ _ hfind hf ?_
    intro a ha
    have htag : (UpdateTask req w).2.tables.tag = w.tables.tag := by rw [ht]
    rw [htag]
    exact find_some_of_mem (htags a ha)

/-- C4. `DeleteTask("u0")` on the small store.  The association delete is issued on the
transaction handle, but the Task-row delete is issued on the pool handle `db`, outside the
transaction (first run, healthy driver).  When the commit then fails (second run) the call
returns the commit error, yet the Task row is gone while its association row is still
there. -/
theorem DeleteTask_task_row_delete_is_not_transactional :
    (DeleteTask { Id := "u0" } demoWorld).2.log =
        [{ call := .BeginTx, err := none },
         { call := .Exec (.tx 0) (.deleteTaskTag "u0"), err := none },
         { call := .Exec .db (.deleteTask "u0"), err := none },
         { call := .Commit 0, err := none }] ∧
      (DeleteTask { Id := "u0" }
          { demoWorld with faults := [none, none, none, some (.fail "commit failed")] }).1
        = .error (.other "commit failed") ∧
      (DeleteTask { Id := "u0" }
          { demoWorld with faults := [none, none, none, some (.fail "commit failed")] }).2.tables
        = { task := [], tag := demoTables.tag,
            task_tag := [{ TaskID := "u0", TagID := "t1" }] } := by
  refine ⟨by decide, rfl, by decide⟩

theorem CreateTask_writes_task_and_associations_witness :
    (∃ t rest, demoCreate.TagIds = t :: rest ∧ t ≠ "") ∧
      (CreateTask demoCreate demoWorld).1 = .ok { Id := "u1" } ∧
      (CreateTask demoCreate demoWorld).2.tables =
        { demoTables with
          task := demoTables.task ++
            [{ ID := "u1", Title := "X", Description := "d", IsEnd := false, CreatedAt := 5,
               UpdateAt := 5, LimitedAt := 9 }]
          task_tag := demoTables.task_tag ++
            [{ TaskID := "u1", TagID := "t1" }, { TaskID := "u1", TagID := "t2" }] } :=
  ⟨⟨"t1", ["t2"], rfl, by decide⟩, rfl,
    ((CreateTask_writes_task_and_associations demoCreate demoWorld
      ⟨"t1", ["t2"], rfl, by decide⟩).1 { Id := "u1" } rfl).1⟩

theorem sentinel_writes_no_association_witness :
    (({ demoCreate with TagIds := ["", "t1"] } : task.CreateTaskRequest).TagIds = [] ∨
        ∃ rest, ({ demoCreate with TagIds := ["", "t1"] } : task.CreateTaskRequest).TagIds
          = "" :: rest) ∧
      (({ demoUpdate with TagIds := [] } : task.UpdateTaskRequest).TagIds = [] ∨
        ∃ rest, ({ demoUpdate with TagIds := [] } : task.UpdateTaskRequest).TagIds
          = "" :: rest) ∧
      (CreateTask { demoCreate with TagIds := ["", "t1"] } demoWorld).1 = .ok { Id := "u1" } ∧
      (CreateTask { demoCreate with TagIds := ["", "t1"] } demoWorld).2.tables.task_tag
        = demoWorld.tables.task_tag ∧
      (UpdateTask { demoUpdate with TagIds := [] } demoWorld).1 = .ok { Success := true } ∧
      (UpdateTask { demoUpdate with TagIds := [] } demoWorld).2.tables.task_tag.filter
          (fun r => r.TaskID == "u0") = [] :=
  ⟨Or.inr ⟨["t1"], rfl⟩, Or.inl rfl, rfl,
    (sentinel_writes_no_association { demoCreate with TagIds := ["", "t1"] }
      { demoUpdate with TagIds := [] } demoWorld (Or.inr ⟨["t1"], rfl⟩) (Or.inl rfl)).1.2.1,
    rfl,
    ((sentinel_writes_no_association { demoCreate with TagIds := ["", "t1"] }
      { demoUpdate with TagIds := [] } demoWorld (Or.inr ⟨["t1"], rfl⟩) (Or.inl rfl)).2.2.1
        { Success := true } rfl).2.2⟩

theorem unknown_task_is_not_found_witness :
    (∀ t ∈ demoWorld.tables.task, t.ID ≠ "non-existent-id") ∧
      (GetTask { Id := "non-existent-id" } demoWorld).1 = .error .ErrNoRows ∧
      (DeleteTask { Id := "non-existent-id" } demoWorld).1 = .error .ErrNoRows :=
  ⟨by decide,
    (unknown_task_is_not_found "non-existent-id" demoWorld (by decide)).1.2 rfl,
    (unknown_task_is_not_found "non-existent-id" demoWorld (by decide)).2.2 rfl⟩

theorem UpdateTask_unknown_is_not_an_error_witness :
    (∀ t ∈ demoWorld.tables.task,
        t.ID ≠ ({ demoUpdate with Id := "non-existent-id" } : task.UpdateTaskRequest).Id) ∧
      (UpdateTask { demoUpdate with Id := "non-existent-id" } demoWorld).1
        = .ok { Success := true } :=
  ⟨by decide,
    (UpdateTask_unknown_is_not_an_error { demoUpdate with Id := "non-existent-id" } demoWorld
      (by decide)).2.2 rfl⟩

theorem UpdateTask_replaces_associations_witness :
    (UpdateTask demoUpdate demoWorld).1 = .ok { Success := true } ∧
      (UpdateTask demoUpdate demoWorld).2.tables.task_tag.filter (fun r => r.TaskID == "u0")
        = [{ TaskID := "u0", TagID := "t2" }] ∧
      (GetTask { Id := "u0" } (UpdateTask demoUpdate demoWorld).2).1 =
        .ok { Task := { Id := "u0", Title := "Y", Description := "e", CreatedAt := some 1,
                        UpdatedAt := some 1, LimitedAt := some 7, IsEnd := true,
                        Tags := [{ Id := "t2", Name := "two" }] } } :=
  ⟨rfl, (UpdateTask_replaces_associations demoUpdate demoWorld { Success := true } rfl).2.1,
    rfl⟩

theorem UpdateTask_then_GetTask_witness :
    demoWorld.tables.task.find? (fun r => r.ID == demoUpdate.Id) =
        some { ID := "u0", Title := "old", Description := "d0", IsEnd := false,
               CreatedAt := 1, UpdateAt := 1, LimitedAt := 2 } ∧
      (UpdateTask demoUpdate demoWorld).1 = .ok { Success := true } ∧
      (UpdateTask demoUpdate demoWorld).2.tables.task =
        [{ ID := "u0", Title := "Y", Description := "e", IsEnd := true,
           CreatedAt := 1, UpdateAt := 1, LimitedAt := 7 }] ∧
      ∃ gresp, (GetTask { Id := "u0" } (UpdateTask demoUpdate demoWorld).2).1 = .ok gresp :=
  ⟨rfl, rfl,
    (UpdateTask_then_GetTask demoUpdate demoWorld { Success := true } _ rfl rfl).1,
    (UpdateTask_then_GetTask demoUpdate demoWorld { Success := true } _ rfl rfl).2.2.2 rfl
      (by decide)⟩

theorem GetTask_assembles_task_and_tags_witness :
    demoWorld.tables.task.find? (fun r => r.ID == "u0") =
        some { ID := "u0", Title := "old", Description := "d0", IsEnd := false,
               CreatedAt := 1, UpdateAt := 1, LimitedAt := 2 } ∧
      (GetTask { Id := "u0" } demoWorld).1 =
        .ok { Task := { Id := "u0", Title := "old", Description := "d0", CreatedAt := some 1,
                        UpdatedAt := some 1, LimitedAt := some 2, IsEnd := false,
                        Tags := [{ Id := "t1", Name := "one" }] } } ∧
      ∃ resp, (GetTask { Id := "u0" } demoWorld).1 = .ok resp :=
  ⟨rfl, rfl,
    (GetTask_assembles_task_and_tags "u0" demoWorld _ rfl).2 rfl (by decide)⟩

/-- A query logs exactly one call, and an exhausted fault schedule stays exhausted. -/
theorem dbQuery_log {α : Type} (q : Query) (rows : Tables → Except Error (List α))
    (w : World) :
    (∃ err, (DB.QueryContext q rows w).2.log = w.log ++ [{ call := .Query q, err := err }]) ∧
      (w.faults = [] → (DB.QueryContext q rows w).2.faults = []) := by
  unfold DB.QueryContext
  rcases hf : w.faults with _ | ⟨_ | (m | ⟨k, m⟩), fs⟩ <;>
    rcases hr : rows w.tables with err | all <;>
    simp [World.queryFault, hf, World.emit, hr]

theorem GetTag_log (id : String) (w : World) :
    (∃ err, (infra.tagRepo.GetTag { ID := id } w).2.log
        = w.log ++ [{ call := .Query (.tagByID id), err := err }]) ∧
      (w.faults = [] → (infra.tagRepo.GetTag { ID := id } w).2.faults = []) :=
  dbQuery_log (.tagByID id) (selectTagByID id) w

theorem GetTaskTagIDs_log (id : String) (w : World) :
    (∃ err, (infra.taskTagRepo.GetTaskTagIDs { TaskID := id } w).2.log
        = w.log ++ [{ call := .Query (.taskTagByTaskID id), err := err }]) ∧
      (w.faults = [] → (infra.taskTagRepo.GetTaskTagIDs { TaskID := id } w).2.faults = []) := by
  have h := dbQuery_log (.taskTagByTaskID id) (selectTaskTagByTaskID id) w
  simp only [infra.taskTagRepo.GetTaskTagIDs]
  rcases hQ : DB.QueryContext (.taskTagByTaskID id) (selectTaskTagByTaskID id) w
    with ⟨err | rs, w1⟩ <;> rw [hQ] at h <;> exact h

theorem taskRepo_ListTask_log (arg : ListTaskParam) (w : World) :
    (∃ err, (infra.taskRepo.ListTask arg w).2.log
        = w.log ++ [{ call := .Query (.taskPage arg.Limit arg.Offset), err := err }]) ∧
      (w.faults = [] → (infra.taskRepo.ListTask arg w).2.faults = []) := by
  have h := dbQuery_log (.taskPage arg.Limit arg.Offset)
    (selectTaskPage arg.Limit arg.Offset) w
  simp only [infra.taskRepo.ListTask]
  rcases hQ : DB.QueryContext (.taskPage arg.Limit arg.Offset)
    (selectTaskPage arg.Limit arg.Offset) w with ⟨err | rs, w1⟩
  · rw [hQ] at h; exact h
  · rw [hQ] at h
    simp only
    rcases he : rs.Err with _ | e <;> simp only [he] <;> exact h

/-- The tag fan-out only appends to the log and keeps an exhausted fault schedule. -/
theorem resolveTags_log : ∀ (assocs : List TaskTag) (acc : List task.Tag) (w : World),
    (∃ evs, (resolveTags assocs acc w).2.log = w.log ++ evs) ∧
      (w.faults = [] → (resolveTags assocs acc w).2.faults = [])
  | [], acc, w => ⟨⟨[], by simp [resolveTags]⟩, fun hf => by simpa [resolveTags] using hf⟩
  | a :: rest, acc, w => by
    obtain ⟨⟨e, g1⟩, g2⟩ := GetTag_log a.TagID w
    simp only [resolveTags]
    rcases hG : infra.tagRepo.GetTag { ID := a.TagID } w with ⟨err | tag, w1⟩
    · rw [hG] at g1 g2
      exact ⟨⟨_, g1⟩, g2⟩
    · rw [hG] at g1 g2
      obtain ⟨⟨evs, r1⟩, r2⟩ := resolveTags_log rest (acc ++ [{ Id := tag.ID, Name := tag.Name }]) w1
      simp only at g1 g2
      refine ⟨⟨{ call := .Query (.tagByID a.TagID), err := e } :: evs, ?_⟩, fun hf => r2 (g2 hf)⟩
      rw [r1, g1, List.append_assoc]
      rfl

/-- The list loop only appends to the log and keeps an exhausted fault schedule. -/
theorem listTasks_log : ∀ (rows : List Task) (acc : List task.Task) (w : World),
    (∃ evs, (listTasks rows acc w).2.log = w.log ++ evs) ∧
      (w.faults = [] → (listTasks rows acc w).2.faults = [])
  | [], acc, w => ⟨⟨[], by simp [listTasks]⟩, fun hf => by simpa [listTasks] using hf⟩
  | row :: rest, acc, w => by
    obtain ⟨⟨e, g1⟩, g2⟩ := GetTaskTagIDs_log row.ID w
    simp only [listTasks]
    rcases hA : infra.taskTagRepo.GetTaskTagIDs { TaskID := row.ID } w with ⟨err | assocs, w1⟩
    · rw [hA] at g1 g2
      exact ⟨⟨_, g1⟩, g2⟩
    · rw [hA] at g1 g2
      simp only at g1 g2 ⊢
      obtain ⟨⟨evs1, r1⟩, r2⟩ := resolveTags_log assocs [] w1
      rcases hR : resolveTags assocs [] w1 with ⟨err | tags, w2⟩
      · rw [hR] at r1 r2
        simp only at r1 r2 ⊢
        exact ⟨⟨{ call := .Query (.taskTagByTaskID row.ID), err := e } :: evs1,
          by rw [r1, g1, List.append_assoc]; rfl⟩, fun hf => r2 (g2 hf)⟩
      · rw [hR] at r1 r2
        simp only at r1 r2 ⊢
        obtain ⟨⟨evs2, l1⟩, l2⟩ := listTasks_log rest (acc ++ [toProto row tags]) w2
        refine ⟨⟨{ call := .Query (.taskTagByTaskID row.ID), err := e } :: (evs1 ++ evs2), ?_⟩,
          fun hf => l2 (r2 (g2 hf))⟩
        rw [l1, r1, g1]
        simp

/-- `ListTask` with the limit it hands to the Task store. -/
theorem ListTask_eq (req : task.ListTaskRequest) (w : World) :
    ListTask req w =
      match infra.taskRepo.ListTask
          { Limit := if req.Limit = 0 then 10 else req.Limit, Offset := req.Offset } w with
      | (.error err, w1) => (.error err, w1)
      | (.ok tasks, w1) =>
        match listTasks tasks [] w1 with
        | (.error err, w2) => (.error err, w2)
        | (.ok taskList, w2) => (.ok { Tasks := taskList }, w2) := by
  unfold ListTask
  by_cases h : req.Limit = 0 <;> simp [h]

/-- C12. The default limit: `ListTask(limit=0, offset)` is `ListTask(limit=10, offset)`, in
its result and in everything it does; for every request the first call of `ListTask` is the
page query on the Task store, with the caller's offset unchanged and with the caller's limit
unchanged when that limit is not zero. -/
theorem ListTask_default_limit (offset : Int) (w : World) :
    ListTask { Limit := 0, Offset := offset } w = ListTask { Limit := 10, Offset := offset } w ∧
      (∃ err rest, (ListTask { Limit := 0, Offset := offset } w).2.log
          = w.log ++ { call := .Query (.taskPage 10 offset), err := err } :: rest) ∧
      ∀ limit : Int, limit ≠ 0 →
        ∃ err rest, (ListTask { Limit := limit, Offset := offset } w).2.log
          = w.log ++ { call := .Query (.taskPage limit offset), err := err } :: rest := by
  have key : ∀ req : task.ListTaskRequest, ∃ err rest, (ListTask req w).2.log
      = w.log ++
        { call := .Query (.taskPage (if req.Limit = 0 then 10 else req.Limit) req.Offset),
          err := err } :: rest := by
    intro req
    rw [ListTask_eq]
    obtain ⟨⟨e, g1⟩, -⟩ := taskRepo_ListTask_log
      { Limit := if req.Limit = 0 then 10 else req.Limit, Offset := req.Offset } w
    rcases hL : infra.taskRepo.ListTask
      { Limit := if req.Limit = 0 then 10 else req.Limit, Offset := req.Offset } w
      with ⟨err | tasks, w1⟩
    · rw [hL] at g1
      exact ⟨e, [], g1⟩
    · rw [hL] at g1
      simp only at g1 ⊢
      obtain ⟨⟨evs, l1⟩, -⟩ := listTasks_log tasks [] w1
      refine ⟨e, evs, ?_⟩
      rcases hT : listTasks tasks [] w1 with ⟨err | out, w2⟩ <;> rw [hT] at l1 <;>
        simp only at l1 ⊢ <;> rw [l1, g1, List.append_assoc] <;> rfl
  refine ⟨?_, ?_, ?_⟩
  · rw [ListTask_eq, ListTask_eq]
    simp
  · simpa using key { Limit := 0, Offset := offset }
  · intro limit hl
    simpa [hl] using key { Limit := limit, Offset := offset }

/-- The Task-page fetch of `ListTask`: a result is the whole page of the store. -/
theorem taskRepo_ListTask_spec (arg : ListTaskParam) (w : World) :
    (infra.taskRepo.ListTask arg w).2.tables = w.tables ∧
      (∀ rows, (infra.taskRepo.ListTask arg w).1 = .ok rows →
        selectTaskPage arg.Limit arg.Offset w.tables = .ok rows) := by
  obtain ⟨q1, q2, -, -⟩ := dbQuery_spec (.taskPage arg.Limit arg.Offset)
    (selectTaskPage arg.Limit arg.Offset) w
  simp only [infra.taskRepo.ListTask]
  rcases hQ : DB.QueryContext (.taskPage arg.Limit arg.Offset)
    (selectTaskPage arg.Limit arg.Offset) w with ⟨err | rs, w1⟩
  · rw [hQ] at q1
    exact ⟨q1, by simp⟩
  · rw [hQ] at q1 q2
    obtain ⟨all, hall, -, hfull⟩ := q2 rs rfl
    simp only
    rcases he : rs.Err with _ | e
    · simp only [he]
      refine ⟨q1, ?_⟩
      intro rows hrows
      simp only [Except.ok.injEq] at hrows
      rw [hall, ← hrows, hfull he]
    · simp only [he]
      exact ⟨q1, by simp⟩

/-- The list loop: every entry it appends is assembled from the Task row in its place. -/
theorem listTasks_spec : ∀ (rows : List Task) (acc : List task.Task) (w : World),
    (listTasks rows acc w).2.tables = w.tables ∧
      (∀ out, (listTasks rows acc w).1 = .ok out →
        ∃ new, out = acc ++ new ∧
          List.Forall₂ (Assembled w.tables (w.faults = [])) rows new)
  | [], acc, w => by
    simp only [listTasks]
    refine ⟨trivial, ?_⟩
    intro out h
    simp only [Except.ok.injEq] at h
    exact ⟨[], by simp [h], List.Forall₂.nil⟩
  | row :: rest, acc, w => by
    obtain ⟨a1, a2, a3⟩ := GetTaskTagIDs_spec row.ID w
    obtain ⟨-, af⟩ := GetTaskTagIDs_log row.ID w
    simp only [listTasks]
    rcases hA : infra.taskTagRepo.GetTaskTagIDs { TaskID := row.ID } w with ⟨err | assocs, w1⟩
    · rw [hA] at a1
      exact ⟨a1, by simp⟩
    · rw [hA] at a1 a2 a3 af
      simp only at a1 a3 af ⊢
      have hpre := a2 assocs rfl
      obtain ⟨r1, r2, -⟩ := resolveTags_spec assocs [] w1
      obtain ⟨-, rf⟩ := resolveTags_log assocs [] w1
      rcases hR : resolveTags assocs [] w1 with ⟨err | tags, w2⟩
      · rw [hR] at r1
        simp only at r1 ⊢
        exact ⟨r1.trans a1, by simp⟩
      · rw [hR] at r1 r2 rf
        simp only at r1 rf ⊢
        obtain ⟨new, hn1, hn2⟩ := r2 tags rfl
        simp only [List.nil_append] at hn1
        subst hn1
        obtain ⟨l1, l2⟩ := listTasks_spec rest (acc ++ [toProto row tags]) w2
        refine ⟨l1.trans (r1.trans a1), ?_⟩
        intro out hout
        obtain ⟨new2, ho1, ho2⟩ := l2 out hout
        refine ⟨toProto row tags :: new2, by simp [ho1], List.Forall₂.cons ?_ ?_⟩
        · refine ⟨assocs, tags, rfl, hpre, ?_, ?_⟩
          · intro hf
            have := (a3 hf).1
            simp only [Except.ok.injEq] at this
            exact this
          · rw [a1] at hn2
            exact hn2
        · have ht : w2.tables = w.tables := r1.trans a1
          rw [ht] at ho2
          refine ho2.imp ?_
          intro r t hrt
          obtain ⟨fetched, tg, h1, h2, h3, h4⟩ := hrt
          exact ⟨fetched, tg, h1, h2, fun hf => h3 (rf (af hf)), h4⟩

/-- A successful `ListTask`: the Task store returned a page for the limit handed to it, and
the response has one entry per row of that page, in order, each assembled from its row. -/
theorem ListTask_ok (req : task.ListTaskRequest) (w : World) (resp : task.ListTaskResponse)
    (h : (ListTask req w).1 = .ok resp) :
    ∃ rows, selectTaskPage (if req.Limit = 0 then 10 else req.Limit) req.Offset w.tables
        = .ok rows ∧
      List.Forall₂ (Assembled w.tables (w.faults = [])) rows resp.Tasks := by
  rw [ListTask_eq] at h
  obtain ⟨t1, t2⟩ := taskRepo_ListTask_spec
    { Limit := if req.Limit = 0 then 10 else req.Limit, Offset := req.Offset } w
  obtain ⟨-, tf⟩ := taskRepo_ListTask_log
    { Limit := if req.Limit = 0 then 10 else req.Limit, Offset := req.Offset } w
  rcases hL : infra.taskRepo.ListTask
    { Limit := if req.Limit = 0 then 10 else req.Limit, Offset := req.Offset } w
    with ⟨err | tasks, w1⟩
  · rw [hL] at h; simp at h
  · rw [hL] at h t1 t2 tf
    simp only at h t1 tf
    obtain ⟨-, l2⟩ := listTasks_spec tasks [] w1
    rcases hT : listTasks tasks [] w1 with ⟨err | out, w2⟩
    · rw [hT] at h; simp at h
    · rw [hT] at h l2
      simp only [Except.ok.injEq] at h
      subst h
      obtain ⟨new, hn1, hn2⟩ := l2 out rfl
      simp only [List.nil_append] at hn1
      subst hn1
      refine ⟨tasks, t2 tasks rfl, ?_⟩
      rw [t1] at hn2
      refine hn2.imp ?_
      intro r t hrt
      obtain ⟨fetched, tg, h1, h2, h3, h4⟩ := hrt
      exact ⟨fetched, tg, h1, h2, fun hf => h3 (tf hf), h4⟩

/-- C13. Pagination: for a positive limit, a successful `ListTask(limit, offset)` has one
entry per Task row that the store returns for that limit and offset (the rows after the
first `offset` ones, `limit` of them at most), in the store's order, none added, dropped or
duplicated: each entry carries the identifier and the fields of the row in its place.  So
the response has at most `limit` tasks. -/
theorem ListTask_returns_the_page (limit offset : Int) (w : World)
    (resp : task.ListTaskResponse) (hlimit : 0 < limit)
    (hok : (ListTask { Limit := limit, Offset := offset } w).1 = .ok resp) :
    (resp.Tasks.length : Int) ≤ limit ∧
      List.Forall₂
        (fun (row : Task) (t : task.Task) =>
          t.Id = row.ID ∧ t.Title = row.Title ∧ t.Description = row.Description ∧
          t.CreatedAt = some row.CreatedAt ∧ t.UpdatedAt = some row.UpdateAt ∧
          t.LimitedAt = some row.LimitedAt ∧ t.IsEnd = row.IsEnd)
        ((w.tables.task.drop offset.toNat).take limit.toNat) resp.Tasks := by
  obtain ⟨rows, hrows, hall⟩ := ListTask_ok _ w resp hok
  have hne : limit ≠ 0 := by omega
  simp only [hne, if_false, selectTaskPage] at hrows
  have hl : ¬ limit < 0 := by omega
  simp only [hl, if_false] at hrows
  by_cases ho : offset < 0
  · simp [ho] at hrows
  · simp only [ho, if_false, Except.ok.injEq] at hrows
    subst hrows
    have hlen := hall.length_eq
    refine ⟨?_, hall.imp ?_⟩
    · rw [← hlen, List.length_take]
      omega
    · intro row t hrt
      obtain ⟨fetched, tags, h1, -⟩ := hrt
      subst h1
      simp [toProto, timestamppb.New]

theorem find_of_nodup : ∀ (rows : List Task) (row : Task),
    (rows.map fun r => r.ID).Nodup → row ∈ rows →
      rows.find? (fun r => r.ID == row.ID) = some row
  | [], _, _, h => by simp at h
  | r :: rest, row, hnd, hmem => by
    simp only [List.map_cons, List.nodup_cons] at hnd
    rcases List.mem_cons.1 hmem with h | h
    · subst h
      simp
    · have hne : r.ID ≠ row.ID := by
        intro he
        exact hnd.1 (he ▸ List.mem_map_of_mem (fun r => r.ID) h)
      rw [List.find?_cons_of_neg _ (by simpa using hne)]
      exact find_of_nodup rest row hnd.2 h

theorem map_some_injective {α : Type} : ∀ (xs ys : List α),
    xs.map some = ys.map some → xs = ys
  | [], [], _ => rfl
  | [], _ :: _, h => by simp at h
  | _ :: _, [], h => by simp at h
  | x :: xs, y :: ys, h => by
    simp only [List.map_cons, List.cons.injEq, Option.some.injEq] at h
    rw [h.1, map_some_injective xs ys h.2]

theorem page_subset (limit offset : Int) (tbl : Tables) (rows : List Task)
    (h : selectTaskPage limit offset tbl = .ok rows) : ∀ r ∈ rows, r ∈ tbl.task := by
  unfold selectTaskPage at h
  by_cases hl : limit < 0
  · simp [hl] at h
  · by_cases ho : offset < 0
    · simp [hl, ho] at h
    · simp only [hl, ho, if_false, Except.ok.injEq] at h
      subst h
      intro r hr
      exact List.mem_of_mem_drop (List.mem_of_mem_take hr)

theorem forall₂_mem_right {α β : Type} {R : α → β → Prop} : ∀ {xs : List α} {ys : List β},
    List.Forall₂ R xs ys → ∀ y ∈ ys, ∃ x ∈ xs, R x y
  | _, _, .nil, y, hy => by simp at hy
  | _, _, .cons h t, y, hy => by
    rcases List.mem_cons.1 hy with hy | hy
    · subst hy
      exact ⟨_, List.mem_cons_self _ _, h⟩
    · obtain ⟨x, hx, hr⟩ := forall₂_mem_right t y hy
      exact ⟨x, List.mem_cons_of_mem _ hx, hr⟩

/-- Agreement of the two read paths under a healthy driver: in a store whose Task rows have
pairwise different identifiers and whose driver reports no fault, every entry of a
successful `ListTask` response is the task that `GetTask` returns for that entry's
identifier in the same state: same identifier, title, description, timestamps, completion
flag and resolved tags, in the same order. -/
theorem ListTask_agrees_with_GetTask (req : task.ListTaskRequest) (w : World)
    (resp : task.ListTaskResponse)
    (huniq : (w.tables.task.map fun r => r.ID).Nodup) (hf : w.faults = [])
    (hok : (ListTask req w).1 = .ok resp) :
    ∀ t ∈ resp.Tasks, (GetTask { Id := t.Id } w).1 = .ok { Task := t } := by
  obtain ⟨rows, hrows, hall⟩ := ListTask_ok req w resp hok
  intro t ht
  obtain ⟨row, hrow, fetched, tags, h1, -, h3, h4⟩ := forall₂_mem_right hall t ht
  have hmem : row ∈ w.tables.task := page_subset _ _ _ _ hrows row hrow
  have hfind := find_of_nodup _ row huniq hmem
  have hfetched := h3 hf
  subst hfetched
  have hid : t.Id = row.ID := by rw [h1]; rfl
  rw [hid]
  have htags : ∀ a ∈ w.tables.task_tag.filter (fun r => r.TaskID == row.ID),
      ∃ g, w.tables.tag.find? (fun g => g.ID == a.TagID) = some g := by
    intro a ha
    have hm : (w.tables.tag.find? (fun g => g.ID == a.TagID)).map tagProto ∈
        (w.tables.task_tag.filter (fun r => r.TaskID == row.ID)).map
          (fun a => (w.tables.tag.find? (fun g => g.ID == a.TagID)).map tagProto) :=
      List.mem_map_of_mem _ ha
    rw [h4] at hm
    obtain ⟨tg, -, htg⟩ := List.mem_map.1 hm
    rcases hfd : w.tables.tag.find? (fun g => g.ID == a.TagID) with _ | g
    · rw [hfd] at htg; simp at htg
    · exact ⟨g, hfd⟩
  obtain ⟨gresp, hg⟩ := GetTask_healthy row.ID w row hfind hf htags
  obtain ⟨-, row2, fetched2, hrow2, hp, -, -, hall2, htg2⟩ := GetTask_ok row.ID w gresp hg
  rw [hfind] at hrow2
  simp only [Option.some.injEq] at hrow2
  subst hrow2
  rw [hall2 hf, h4] at htg2
  have heq : tags = gresp.Task.Tags := map_some_injective _ _ htg2
  rw [hg]
  have : gresp.Task = t := by rw [hp, h1, heq]
  rw [← this]

/-- The unit of work of `DeleteTask` when it succeeds on an open transaction: the Task rows
with the identifier are already gone from the committed tables, and the association delete
is staged. -/
theorem deleteTaskFn_ok (req : task.DeleteTaskRequest) (tx : Tx) (w w2 : World)
    (p : List Stmt) (hopen : w.txs.lookup tx.id = some p)
    (h : deleteTaskFn req tx w = (none, w2)) :
    w2.tables = { w.tables with task := w.tables.task.filter (fun r => r.ID != req.Id) } ∧
      w2.clock = w.clock ∧
      w2.txs.lookup tx.id = some (p ++ [.deleteTaskTag req.Id]) ∧
      (∃ r ∈ w.tables.task, r.ID = req.Id) ∧
      (w.faults = [] → w2.faults = []) := by
  obtain ⟨t1, t2, -, t4, -⟩ := txExec_spec tx (.deleteTaskTag req.Id) w
  have th := txExec_healthy tx (.deleteTaskTag req.Id) w p hopen
  simp only [deleteTaskFn, infra.taskTagRepo.DeleteTaskTags, infra.taskRepo.DeleteTask] at h
  rcases hE : tx.ExecContext (.deleteTaskTag req.Id) w with ⟨err | res, w1⟩
  · rw [hE] at h; simp [errOf] at h
  · rw [hE] at h t1 t2 t4 th
    simp only [errOf, true_implies] at h t1 t2 t4 th
    obtain ⟨d1, d2, -, -, d5, d6⟩ := dbExec_spec (.deleteTask req.Id) w1
    rcases hD : DB.ExecContext (.deleteTask req.Id) w1 with ⟨err | row, w3⟩
    · rw [hD] at h; simp at h
    · rw [hD] at h d1 d2 d5 d6
      simp only [Result.RowsAffected] at h d1 d2 d6
      obtain ⟨e1, e2⟩ := d5 row rfl
      simp only at e1
      by_cases hc : row.rows = 0
      · simp [hc] at h
      · simp only [hc, if_false, Prod.mk.injEq, true_and] at h
        subst h
        refine ⟨?_, d1.trans t2, ?_, ?_, ?_⟩
        · rw [e1, t1, t2]
          rfl
        · rw [d2, t4, lookup_stage, hopen]
          rfl
        · rw [e2, t1, t2] at hc
          simp only [Stmt.run] at hc
          have hne : w.tables.task.filter (fun r => r.ID == req.Id) ≠ [] := by
            intro hnil
            exact hc (by rw [hnil]; rfl)
          obtain ⟨r, hr⟩ := List.exists_mem_of_ne_nil _ hne
          have := List.mem_filter.1 hr
          exact ⟨r, this.1, by simpa using this.2⟩
        · intro hf
          exact (d6 ((th hf).2)).2

/-- With no fault scheduled, the unit of work of `DeleteTask` succeeds on an open
transaction when a Task row carries the identifier. -/
theorem deleteTaskFn_healthy (req : task.DeleteTaskRequest) (tx : Tx) (w : World)
    (p : List Stmt) (hopen : w.txs.lookup tx.id = some p) (hf : w.faults = [])
    (hrow : ∃ r ∈ w.tables.task, r.ID = req.Id) :
    (deleteTaskFn req tx w).1 = none := by
  obtain ⟨t1, t2, -, -, -⟩ := txExec_spec tx (.deleteTaskTag req.Id) w
  have th := txExec_healthy tx (.deleteTaskTag req.Id) w p hopen hf
  simp only [deleteTaskFn, infra.taskTagRepo.DeleteTaskTags, infra.taskRepo.DeleteTask]
  rcases hE : tx.ExecContext (.deleteTaskTag req.Id) w with ⟨err | res, w1⟩
  · rw [hE] at th; simp [errOf] at th
  · rw [hE] at t1 t2 th
    simp only [errOf] at t1 t2 th ⊢
    obtain ⟨-, -, -, -, d5, d6⟩ := dbExec_spec (.deleteTask req.Id) w1
    have hd := (d6 th.2).1
    rcases hD : DB.ExecContext (.deleteTask req.Id) w1 with ⟨err | row, w3⟩
    · rw [hD] at hd; simp [errOf] at hd
    · rw [hD] at d5
      obtain ⟨-, e2⟩ := d5 row rfl
      have hc : row.rows ≠ 0 := by
        rw [e2, t1, t2]
        simp only [Stmt.run]
        obtain ⟨r, hr, hid⟩ := hrow
        have : r ∈ w.tables.task.filter (fun r => r.ID == req.Id) :=
          List.mem_filter.2 ⟨hr, by simpa using hid⟩
        intro h0
        rw [List.length_eq_zero] at h0
        rw [h0] at this
        simp at this
      simp [Result.RowsAffected, hc]

/-- C15. Cascade on delete: after a successful `DeleteTask(id)` the committed tables are the
old ones without the Task rows and without the association rows that carry the identifier:
no association row and no Task row for `id` remains, a following `GetTask(id)` returns an
error, and the rows of other identifiers and all Tag rows are as they were.  With no driver
fault the call does succeed when a Task row carries the identifier. -/
theorem DeleteTask_removes_task_and_associations (req : task.DeleteTaskRequest) (w : World) :
    (∀ resp, (DeleteTask req w).1 = .ok resp →
      (DeleteTask req w).2.tables =
        { task := w.tables.task.filter (fun r => r.ID != req.Id)
          tag := w.tables.tag
          task_tag := w.tables.task_tag.filter (fun r => r.TaskID != req.Id) } ∧
      (DeleteTask req w).2.tables.task_tag.filter (fun r => r.TaskID == req.Id) = [] ∧
      (DeleteTask req w).2.tables.task.filter (fun r => r.ID == req.Id) = [] ∧
      ∃ err, (GetTask { Id := req.Id } (DeleteTask req w).2).1 = .error err) ∧
    (w.faults = [] → (∃ r ∈ w.tables.task, r.ID = req.Id) →
      (DeleteTask req w).1 = .ok { Success := true }) := by
  have hopen : (begun w).txs.lookup w.nextTx = some [] := by simp [begun, List.lookup]
  unfold DeleteTask
  rcases withTx_cases (deleteTaskFn req) w with
    ⟨m, w1, hbeg, hR⟩ | ⟨w2, hF, hR⟩ | ⟨err, w2, hF, hR2, hR1⟩
  · rw [hR]
    refine ⟨by simp, ?_⟩
    intro hf _
    rcases beginTx_cases w with ⟨_, _, _, _, _, _, hne⟩ | hb2
    · exact absurd hf hne
    · rw [hbeg] at hb2; simp at hb2
  · obtain ⟨f1, f2, f3, -, f5⟩ := deleteTaskFn_ok req { id := w.nextTx } (begun w) w2 [] hopen hF
    obtain ⟨c1, -, c3, -, -, c6⟩ := commit_spec { id := w.nextTx } w2 _ f3
    rw [hR]
    rcases hC : Tx.Commit { id := w.nextTx } w2 with ⟨_ | err, w3⟩
    · rw [hC] at c3
      have ht := c3 rfl
      simp only at ht ⊢
      have htab : w3.tables =
          { task := w.tables.task.filter (fun r => r.ID != req.Id)
            tag := w.tables.tag
            task_tag := w.tables.task_tag.filter (fun r => r.TaskID != req.Id) } := by
        rw [ht, f1]
        simp [replay, Stmt.run, begun]
      refine ⟨?_, fun _ _ => trivial⟩
      intro resp _
      have hnone : ∀ t ∈ w3.tables.task, t.ID ≠ req.Id := by
        intro t ht2
        rw [htab] at ht2
        have := (List.mem_filter.1 ht2).2
        simpa using this
      refine ⟨htab, ?_, ?_, (GetTask_unknown req.Id w3 hnone).1⟩
      · rw [htab, List.filter_eq_nil_iff]
        intro a ha
        have := (List.mem_filter.1 ha).2
        simpa using this
      · rw [htab, List.filter_eq_nil_iff]
        intro a ha
        have := (List.mem_filter.1 ha).2
        simpa using this
    · refine ⟨by simp, ?_⟩
      intro hf _
      have := (c6 (f5 (by simp [begun, hf]))).1
      rw [hC] at this
      simp at this
  · have hne : ∃ e, (NewPostgresTransaction.WithTransaction (deleteTaskFn req) w).1 = some e := by
      rcases hR1 with ⟨-, h1⟩ | ⟨rb, -, h1⟩ <;> exact ⟨_, h1⟩
    obtain ⟨e, he⟩ := hne
    rcases hW : NewPostgresTransaction.WithTransaction (deleteTaskFn req) w with ⟨_ | e2, w3⟩
    · rw [hW] at he; simp at he
    · refine ⟨by simp, ?_⟩
      intro hf hrow
      have := deleteTaskFn_healthy req { id := w.nextTx } (begun w) [] hopen
        (by simp [begun, hf]) hrow
      rw [hF] at this
      simp at this

/-- C14, amended. Round trip: for every title and every existing tag whose identifier `t1`
is not the empty string, if `CreateTask(title, tagIds=[t1])` succeeds with an identifier
that no Task row and no association row of the store carried before, then a `GetTask` of
that identifier in the resulting state, with a driver that reports no fault, returns a task
with that identifier, the title, completion flag false, and exactly one resolved tag, whose
id is `t1` and whose name is the stored name of `t1`. -/
theorem CreateTask_then_GetTask (req : task.CreateTaskRequest) (t1 : String) (g : Tag)
    (w : World) (resp : task.CreateTaskResponse)
    (htags : req.TagIds = [t1]) (ht1 : t1 ≠ "")
    (htag : w.tables.tag.find? (fun r => r.ID == t1) = some g)
    (hok : (CreateTask req w).1 = .ok resp)
    (hfresh : (∀ r ∈ w.tables.task, r.ID ≠ resp.Id) ∧
      ∀ a ∈ w.tables.task_tag, a.TaskID ≠ resp.Id)
    (hf : (CreateTask req w).2.faults = []) :
    ∃ gresp,
      (GetTask { Id := resp.Id } (CreateTask req w).2).1 = .ok gresp ∧
      gresp.Task.Id = resp.Id ∧ gresp.Task.Title = req.Title ∧ gresp.Task.IsEnd = false ∧
      gresp.Task.Tags = [{ Id := t1, Name := g.Name }] := by
  obtain ⟨ht, -, -⟩ := CreateTask_ok req w resp hok
  have heff : effectiveTags req.TagIds = [t1] := by
    rw [htags]
    exact effectiveTags_tags ⟨t1, [], rfl, ht1⟩
  rw [createPlan, heff, replay_cons, replay_insertTaskTag] at ht
  simp only [Stmt.run, List.map_cons, List.map_nil] at ht
  have hgid : g.ID = t1 := by simpa using List.find?_some htag
  have hfind : (CreateTask req w).2.tables.task.find? (fun r => r.ID == resp.Id) =
      some { ID := resp.Id, Title := req.Title, Description := req.Description,
             IsEnd := false, CreatedAt := w.clock, UpdateAt := w.clock,
             LimitedAt := timestamppb.AsTime req.LimitedAt } := by
    rw [ht]
    simp only [List.find?_append, find_task_none hfresh.1]
    simp
  have hassoc : (CreateTask req w).2.tables.task_tag.filter (fun r => r.TaskID == resp.Id)
      = [{ TaskID := resp.Id, TagID := t1 }] := by
    rw [ht]
    have hnil : w.tables.task_tag.filter (fun r => r.TaskID == resp.Id) = [] := by
      rw [List.filter_eq_nil_iff]
      intro a ha
      simpa using hfresh.2 a ha
    simp [List.filter_append, hnil]
  have htagtbl : (CreateTask req w).2.tables.tag = w.tables.tag := by
    rw [ht]
  have hall : ∀ a ∈ (CreateTask req w).2.tables.task_tag.filter
        (fun r => r.TaskID == resp.Id),
      ∃ g2, (CreateTask req w).2.tables.tag.find? (fun g => g.ID == a.TagID) = some g2 := by
    intro a ha
    rw [hassoc] at ha
    simp only [List.mem_singleton] at ha
    subst ha
    rw [htagtbl]
    exact ⟨g, htag⟩
  obtain ⟨gresp, hg⟩ := GetTask_healthy resp.Id _ _ hfind hf hall
  obtain ⟨-, row2, fetched, hrow2, hp, -, -, hfull, htg⟩ := GetTask_ok resp.Id _ gresp hg
  rw [hfind] at hrow2
  simp only [Option.some.injEq] at hrow2
  subst hrow2
  rw [hfull hf, hassoc, htagtbl] at htg
  simp only [List.map_cons, List.map_nil, htag, Option.map_some'] at htg
  have htags2 : gresp.Task.Tags = [tagProto g] :=
    (map_some_injective [tagProto g] gresp.Task.Tags htg).symm
  refine ⟨gresp, hg, ?_, ?_, ?_, ?_⟩
  · rw [hp]; rfl
  · rw [hp]; rfl
  · rw [hp]; rfl
  · rw [htags2, tagProto, hgid]

/-- C14 as stated fails for an existing tag whose identifier is the empty string: the store
`demoBlank` has such a tag, `CreateTask(title="X", tagIds=[""])` succeeds with identifier
`u1`, and the following `GetTask("u1")` succeeds with no resolved tag at all, because the
guard of `CreateTask` writes no association for a list that starts with the empty string. -/
theorem round_trip_fails_for_empty_tag_id :
    (∃ g ∈ demoBlank.tables.tag, g.ID = "") ∧ demoBlankCreate.TagIds = [""] ∧
      (CreateTask demoBlankCreate demoBlank).1 = .ok { Id := "u1" } ∧
      (GetTask { Id := "u1" } (CreateTask demoBlankCreate demoBlank).2).1
        = .ok demoBlankTask ∧
      demoBlankTask.Task.Tags = [] ∧
      ¬ ∃ gresp,
        (GetTask { Id := "u1" } (CreateTask demoBlankCreate demoBlank).2).1 = .ok gresp ∧
        gresp.Task.Tags.length = 1 := by
  refine ⟨by decide, rfl, rfl, rfl, rfl, ?_⟩
  rintro ⟨gresp, h, hl⟩
  have h2 : (GetTask { Id := "u1" } (CreateTask demoBlankCreate demoBlank).2).1 =
      .ok demoBlankTask := rfl
  rw [h2] at h
  simp only [Except.ok.injEq] at h
  rw [← h] at hl
  simp [demoBlankTask] at hl

/-- C11. The association fetch of the read fan-out can fail without the call failing.  On
`demoTaggedCut` the iteration over the association rows of `u0` breaks after the first row:
the driver reports the error (it is in the log of the query), but `GetTask("u0")` goes on to
look up the tag of the row it has, and returns the task with one tag of its two and no
error; `ListTask` returns a task list holding that partial task.  With the healthy driver
of `demoTagged` the same `GetTask` returns both tags. -/
theorem association_fetch_failure_is_swallowed :
    (GetTask { Id := "u0" } demoTaggedCut).1 = .ok { Task := demoPartialTask } ∧
      (GetTask { Id := "u0" } demoTaggedCut).2.log =
        [{ call := .Query (.taskByID "u0"), err := none },
         { call := .Query (.taskTagByTaskID "u0"),
           err := some (.other "connection reset") },
         { call := .Query (.tagByID "t1"), err := none }] ∧
      (ListTask { Limit := 10, Offset := 0 } demoTaggedCut).1
        = .ok { Tasks := [demoPartialTask] } ∧
      (GetTask { Id := "u0" } demoTagged).1 =
        .ok { Task := { demoPartialTask with
                Tags := [{ Id := "t1", Name := "one" }, { Id := "t2", Name := "two" }] } } := by
  refine ⟨rfl, by decide, rfl, rfl⟩

theorem ListTask_default_limit_witness :
    (2 : Int) ≠ 0 ∧
      ∃ err rest, (ListTask { Limit := 2, Offset := 1 } demoThree).2.log
        = demoThree.log ++ { call := .Query (.taskPage 2 1), err := err } :: rest :=
  ⟨by decide, (ListTask_default_limit 1 demoThree).2.2 2 (by decide)⟩

theorem ListTask_returns_the_page_witness :
    (0 : Int) < 2 ∧ (ListTask { Limit := 2, Offset := 0 } demoThree).1 = .ok demoPage ∧
      (demoPage.Tasks.length : Int) ≤ 2 :=
  ⟨by decide, rfl, (ListTask_returns_the_page 2 0 demoThree demoPage (by decide) rfl).1⟩

theorem ListTask_agrees_with_GetTask_witness :
    (demoThree.tables.task.map fun r => r.ID).Nodup ∧ demoThree.faults = [] ∧
      (ListTask { Limit := 2, Offset := 0 } demoThree).1 = .ok demoPage ∧
      ∀ t ∈ demoPage.Tasks, (GetTask { Id := t.Id } demoThree).1 = .ok { Task := t } :=
  ⟨by decide, rfl, rfl,
    ListTask_agrees_with_GetTask { Limit := 2, Offset := 0 } demoThree demoPage
      (by decide) rfl rfl⟩

theorem DeleteTask_removes_task_and_associations_witness :
    (DeleteTask { Id := "u0" } demoWorld).1 = .ok { Success := true } ∧
      (DeleteTask { Id := "u0" } demoWorld).2.tables =
        { task := demoWorld.tables.task.filter (fun r => r.ID != "u0")
          tag := demoWorld.tables.tag
          task_tag := demoWorld.tables.task_tag.filter (fun r => r.TaskID != "u0") } ∧
      (DeleteTask { Id := "u0" } demoWorld).2.tables.task = [] ∧
      (DeleteTask { Id := "u0" } demoWorld).2.tables.task_tag = [] :=
  ⟨rfl,
    ((DeleteTask_removes_task_and_associations { Id := "u0" } demoWorld).1
      { Success := true } rfl).1,
    by decide, by decide⟩

theorem CreateTask_then_GetTask_witness :
    ({ demoCreate with TagIds := ["t1"] } : task.CreateTaskRequest).TagIds = ["t1"] ∧
      "t1" ≠ "" ∧
      demoWorld.tables.tag.find? (fun r => r.ID == "t1") = some { ID := "t1", Name := "one" } ∧
      (CreateTask { demoCreate with TagIds := ["t1"] } demoWorld).1 = .ok { Id := "u1" } ∧
      ((∀ r ∈ demoWorld.tables.task, r.ID ≠ "u1") ∧
        ∀ a ∈ demoWorld.tables.task_tag, a.TaskID ≠ "u1") ∧
      (CreateTask { demoCreate with TagIds := ["t1"] } demoWorld).2.faults = [] ∧
      ∃ gresp,
        (GetTask { Id := "u1" }
          (CreateTask { demoCreate with TagIds := ["t1"] } demoWorld).2).1 = .ok gresp ∧
        gresp.Task.Id = "u1" ∧ gresp.Task.Title = "X" ∧ gresp.Task.IsEnd = false ∧
        gresp.Task.Tags = [{ Id := "t1", Name := "one" }] :=
  ⟨rfl, by decide, rfl, rfl, by decide, rfl,
    CreateTask_then_GetTask { demoCreate with TagIds := ["t1"] } "t1"
      { ID := "t1", Name := "one" } demoWorld { Id := "u1" } rfl (by decide) rfl rfl
      (by decide) rfl⟩

/-- C16. The two read paths disagree on `demoPairCut`, a store with pairwise different task
identifiers.  `ListTask(limit=10, offset=0)` succeeds, but the iteration over the
association rows of `u1` breaks before its first row, the association fetch returns no row
and no error, and the entry for `u1` has no tag; `GetTask("u1")` in the same state succeeds
and returns `u1` with its tag `t1`.  So an entry of a successful `ListTask` response is not
the task that `GetTask` returns for its identifier. -/
theorem ListTask_disagrees_with_GetTask :
    (demoPairCut.tables.task.map fun r => r.ID).Nodup ∧
      (ListTask { Limit := 10, Offset := 0 } demoPairCut).1 = .ok demoPairPage ∧
      demoPairTask [] ∈ demoPairPage.Tasks ∧
      (GetTask { Id := "u1" } demoPairCut).1 =
        .ok { Task := demoPairTask [{ Id := "t1", Name := "one" }] } ∧
      (ListTask { Limit := 10, Offset := 0 } demoPairCut).2.log =
        [{ call := .Query (.taskPage 10 0), err := none },
         { call := .Query (.taskTagByTaskID "u0"), err := none },
         { call := .Query (.tagByID "t1"), err := none },
         { call := .Query (.taskTagByTaskID "u1"),
           err := some (.other "connection reset") }] ∧
      ¬ ∀ resp, (ListTask { Limit := 10, Offset := 0 } demoPairCut).1 = .ok resp →
        ∀ t ∈ resp.Tasks, (GetTask { Id := t.Id } demoPairCut).1 = .ok { Task := t } := by
  have hmem : demoPairTask [] ∈ demoPairPage.Tasks :=
    List.mem_cons_of_mem _ (List.mem_singleton.2 rfl)
  refine ⟨by decide, rfl, hmem, rfl, by decide, ?_⟩
  intro h
  have h1 := h demoPairPage rfl (demoPairTask []) hmem
  have h2 : (GetTask { Id := (demoPairTask []).Id } demoPairCut).1 =
      .ok { Task := demoPairTask [{ Id := "t1", Name := "one" }] } := rfl
  rw [h2] at h1
  simp [demoPairTask] at h1

end TaskController
